import Mathlib

/-!
Verification development for the AVM1 object-model core
(`src/core/src/avm1/script_object.rs`, `src/core/src/avm1/shared_object.rs`).

Shallow embedding conventions:
* AVM1 values are modelled by `Val`; number payloads are `Int` (the Rust code
  stores `usize` lengths through `f64`; lengths handled here are exact in both).
* Executables (getters/setters) are opaque identifiers (`Nat`); their behavior
  is supplied by the `Activation` environment.
* The GC arena is a list of cells indexed by allocation order; a raw pointer
  (`as_ptr`) is the cell index of the handle's own cell.
* `PropertyMap` and `Property` live in files of this repository that are not
  part of the sources given here; they are modelled from the spec (see the
  doc comments below).
-/

/-- AVM1 value: tagged union `Undefined | Null | Bool | Number | String | Object`.
The `object` payload is an arena reference. Number payloads are modelled as
integers (values only flow through the object core opaquely; the only numbers
the core itself produces are array lengths). -/
inductive Val where
  | undefined : Val
  | null : Val
  | boolean : Bool → Val
  | number : Int → Val
  | string : String → Val
  | object : Nat → Val
deriving DecidableEq, Repr

/-- Property attribute set `{DontEnum, DontDelete, ReadOnly}` (enumset). -/
structure Attrs where
  dontEnum : Bool
  dontDelete : Bool
  readOnly : Bool
deriving DecidableEq, Repr

/-- `EnumSet::empty()` / `Default::default()`. -/
def attrsEmpty : Attrs := ⟨false, false, false⟩

/-- `Attribute::DontEnum.into()`. -/
def attrsDontEnum : Attrs := ⟨true, false, false⟩

/-- Modelled from the spec: `Property` (`src/core/src/avm1/property.rs` is not
among the given sources): a stored value or a virtual accessor pair, each
carrying an attribute set. Getter/setter callables are opaque ids. -/
inductive Property where
  | stored : Val → Attrs → Property
  | virt : Nat → Option Nat → Attrs → Property
deriving DecidableEq, Repr

/-- Modelled from the spec: `Property::is_virtual()`. -/
def Property.isVirtual : Property → Bool
  | .stored _ _ => false
  | .virt _ _ _ => true

/-- Modelled from the spec: `Property::set(new_value)`. A `ReadOnly` stored
property is unchanged and yields no callable; a writable stored property is
overwritten; a virtual property is unchanged and yields its optional setter. -/
def Property.setVal : Property → Val → Property × Option Nat
  | .stored v0 a, v => if a.readOnly then (.stored v0 a, none) else (.stored v a, none)
  | .virt g so a, _ => (.virt g so a, so)

/-- ASCII case folding of one character (`A`-`Z` map to lowercase). -/
def foldChar (c : Char) : Char :=
  if 'A' ≤ c ∧ c ≤ 'Z' then Char.ofNat (c.toNat + 32) else c

/-- ASCII case folding of a string. -/
def asciiFold (s : String) : String := ⟨s.data.map foldChar⟩

/-- Modelled from the spec: key comparison of `PropertyMap` — exact match when
case-sensitive, ASCII-folded match otherwise. -/
def keyEq (cs : Bool) (k probe : String) : Bool :=
  if cs then k == probe else asciiFold k == asciiFold probe

/-- Modelled from the spec: `PropertyMap` is an insertion-ordered mapping; the
first inserted matching key wins on lookup. -/
abbrev PropMap := List (String × Property)

/-- Modelled from the spec: `PropertyMap::get(name, case_sensitive)` — first
matching entry's property. -/
def pmGet (m : PropMap) (name : String) (cs : Bool) : Option Property :=
  match m with
  | [] => none
  | kv :: rest => if keyEq cs kv.1 name then some kv.2 else pmGet rest name cs

/-- Modelled from the spec: `PropertyMap::contains_key(name, case_sensitive)`. -/
def pmContains (m : PropMap) (name : String) (cs : Bool) : Bool :=
  (pmGet m name cs).isSome

/-- Modelled from the spec: `PropertyMap::insert(name, prop, case_sensitive)` —
replace the property under the first matching existing key (keeping its casing
and position), else append preserving insertion order. -/
def pmInsert (name : String) (p : Property) (cs : Bool) : PropMap → PropMap
  | [] => [(name, p)]
  | kv :: rest =>
    if keyEq cs kv.1 name then (kv.1, p) :: rest else kv :: pmInsert name p cs rest

/-- Decimal digit value of a character, `none` for non-digits
(models the per-character step of Rust `str::parse::<usize>`). -/
def digitVal (c : Char) : Option Nat :=
  if '0' ≤ c ∧ c ≤ '9' then some (c.toNat - 48) else none

/-- Accumulating decimal parse of a character list. -/
def parseDigitsGo (acc : Nat) : List Char → Option Nat
  | [] => some acc
  | c :: cs =>
    match digitVal c with
    | some d => parseDigitsGo (10 * acc + d) cs
    | none => none

/-- Decimal parse of a non-empty all-digit character list. -/
def parseDigits : List Char → Option Nat
  | [] => none
  | c :: cs => parseDigitsGo 0 (c :: cs)

/-- Model of Rust `str::parse::<usize>()`: an optional leading `+`, then at
least one ASCII digit, value below `2 ^ 64` (64-bit `usize`). -/
def parseUsize (s : String) : Option Nat :=
  let cs :=
    match s.data with
    | '+' :: rest => rest
    | cs => cs
  match parseDigits cs with
  | some n => if n < 2 ^ 64 then some n else none
  | none => none

/-- Decimal digit character for `n < 10`. -/
def natDigitChar (n : Nat) : Char := Char.ofNat (48 + n)

/-- Fuel-indexed decimal rendering (most significant digit first). -/
def natDigitsAux : Nat → Nat → List Char
  | 0, _ => []
  | fuel + 1, n =>
    if n < 10 then [natDigitChar n] else natDigitsAux fuel (n / 10) ++ [natDigitChar (n % 10)]

/-- Model of Rust `usize::to_string()` for array indices and lengths. -/
def usizeToString (n : Nat) : String := ⟨natDigitsAux (n + 1) n⟩

/-- Array storage overlay: dense vector or sparse-in-properties with a length
(`ArrayStorage` in `script_object.rs`). -/
inductive ArrayStorage where
  | vector : List Val → ArrayStorage
  | properties : Nat → ArrayStorage
deriving DecidableEq, Repr

/-- `ScriptObjectData`: prototype link, property table, array overlay,
type tag and interface list. -/
structure ObjData where
  prototype : Option Nat
  values : PropMap
  arrayStorage : ArrayStorage
  typeOf : String
  interfaces : List Nat
deriving DecidableEq

/-- A GC cell: either a `ScriptObjectData` cell or a `SharedObjectData` cell
(base script object reference plus optional shared-object name). -/
inductive Cell where
  | script : ObjData → Cell
  | shared : Nat → Option String → Cell
deriving DecidableEq

/-- The GC arena: cells in allocation order. An object handle (`Ref`) is the
index of its own cell, which also serves as its raw pointer. -/
structure St where
  cells : List Cell
deriving DecidableEq

/-- Object handle. -/
abbrev Ref := Nat

/-- `as_ptr()`: the raw pointer of a handle is its own cell index
(both `ScriptObject::as_ptr` and `SharedObject::as_ptr` return `self.0.as_ptr()`). -/
def asPtr (r : Ref) : Nat := r

/-- Resolve a handle to the script cell realizing it: a `ScriptObject` is its
own realization, a `SharedObject` delegates to its base. -/
def baseOf (s : St) (r : Ref) : Option Ref :=
  match s.cells[r]? with
  | some (.script _) => some r
  | some (.shared b _) => some b
  | none => none

/-- `as_script_object()`: `ScriptObject` yields itself, `SharedObject` yields
its base. -/
def asScriptObject (s : St) (r : Ref) : Option Ref := baseOf s r

/-- Read the `ScriptObjectData` behind a handle. -/
def readData (s : St) (r : Ref) : Option ObjData :=
  match baseOf s r with
  | some rb =>
    match s.cells[rb]? with
    | some (.script d) => some d
    | _ => none
  | none => none

/-- Write the `ScriptObjectData` behind a handle (mutation through the
resolved script cell). -/
def writeData (s : St) (r : Ref) (d : ObjData) : St :=
  match baseOf s r with
  | some rb => ⟨s.cells.set rb (.script d)⟩
  | none => s

/-- Allocate a fresh cell; the returned handle is the new cell's index. -/
def alloc (s : St) (c : Cell) : Ref × St := (s.cells.length, ⟨s.cells ++ [c]⟩)

/-- The data of a fresh plain object (`ScriptObject::object`):
`Properties { length: 0 }` storage, empty property table. -/
def objectNewData (proto : Option Ref) : ObjData :=
  ⟨proto, [], .properties 0, "object", []⟩

/-- `ScriptObject::object(gc, proto)`. -/
def objectNew (s : St) (proto : Option Ref) : Ref × St :=
  alloc s (.script (objectNewData proto))

/-- `proto()` of a handle. -/
def protoOf (s : St) (r : Ref) : Option Ref :=
  match readData s r with
  | some d => d.prototype
  | none => none

/-- Attribute set used by `sync_native_property` on a vacant entry. -/
def syncAttrs (isEnumerable : Bool) : Attrs :=
  if isEnumerable then attrsEmpty else attrsDontEnum

/-- `sync_native_property` on the property list: resolve `entry(name, false)`
(case-insensitive); on an occupied `Stored` entry overwrite the value (keeping
key and attributes) or remove the entry when the native value is `None`; leave
an occupied `Virtual` entry untouched; on a vacant entry insert a `Stored`
property when a native value is given. -/
def syncList (name : String) (native : Option Val) (isEnumerable : Bool) :
    PropMap → PropMap
  | [] =>
    match native with
    | some v => [(name, .stored v (syncAttrs isEnumerable))]
    | none => []
  | kv :: rest =>
    if keyEq false kv.1 name then
      match kv.2, native with
      | .stored _ a, some v => (kv.1, .stored v a) :: rest
      | .stored _ _, none => rest
      | .virt g so a, _ => (kv.1, .virt g so a) :: rest
    else kv :: syncList name native isEnumerable rest

/-- `sync_native_property` on an object's data. -/
def syncD (d : ObjData) (name : String) (native : Option Val) (isEnumerable : Bool) :
    ObjData :=
  { d with values := syncList name native isEnumerable d.values }

/-- `sync_native_property` on a handle. -/
def syncNative (s : St) (r : Ref) (name : String) (native : Option Val)
    (isEnumerable : Bool) : St :=
  match readData s r with
  | some d => writeData s r (syncD d name native isEnumerable)
  | none => s

/-- `ScriptObject::array(gc, proto)`: `Vector([])` storage, then
`sync_native_property("length", Some(0), false)`. -/
def arrayNew (s : St) (proto : Option Ref) : Ref × St :=
  let rs := alloc s (.script ⟨proto, [], .vector [], "object", []⟩)
  (rs.1, syncNative rs.2 rs.1 "length" (some (.number 0)) false)

/-- `SharedObject::empty_shared_obj(gc, proto)`: allocates the base
`ScriptObject::object(gc, proto)` and then the shared wrapper cell. -/
def emptySharedObj (s : St) (proto : Option Ref) : Ref × St :=
  let bs := objectNew s proto
  alloc bs.2 (.shared bs.1 none)

/-- `Vec::resize(n, fill)`. -/
def listResize (l : List Val) (n : Nat) (fill : Val) : List Val :=
  l.take n ++ List.replicate (n - l.length) fill

/-- `length()`: vector length or the `Properties` length field. -/
def lengthOf (s : St) (r : Ref) : Nat :=
  match readData s r with
  | some d =>
    match d.arrayStorage with
    | .vector v => v.length
    | .properties n => n
  | none => 0

/-- `set_length(new_length)` on an object's data: resize a vector (removing the
stringified-index mirror properties of truncated slots), or assign the
`Properties` length; in both cases re-sync the `"length"` property. -/
def setLengthD (d : ObjData) (n : Nat) : ObjData :=
  match d.arrayStorage with
  | .vector v =>
    let d1 := { d with arrayStorage := .vector (listResize v n .undefined) }
    let d2 :=
      if n < v.length then
        (List.range' n (v.length - n)).foldl
          (fun dd i => syncD dd (usizeToString i) none true) d1
      else d1
    syncD d2 "length" (some (.number n)) false
  | .properties _ =>
    syncD { d with arrayStorage := .properties n } "length" (some (.number n)) false

/-- `set_length` on a handle. -/
def setLength (s : St) (r : Ref) (n : Nat) : St :=
  match readData s r with
  | some d => writeData s r (setLengthD d n)
  | none => s

/-- `set_array_element(index, value)` on an object's data: sync the
stringified index as an enumerable stored property; for vector storage extend
with `Undefined` as needed, store the value, and re-sync `"length"`; for
`Properties` storage leave the length alone. Returns the resulting length. -/
def setArrayElementD (d : ObjData) (index : Nat) (value : Val) : Nat × ObjData :=
  let d1 := syncD d (usizeToString index) (some value) true
  match d1.arrayStorage with
  | .vector v =>
    let v1 := if index ≥ v.length then listResize v (index + 1) .undefined else v
    let v2 := v1.set index value
    let d2 := { d1 with arrayStorage := .vector v2 }
    (v2.length, syncD d2 "length" (some (.number v2.length)) false)
  | .properties len => (len, d1)

/-- `set_array_element` on a handle. -/
def setArrayElement (s : St) (r : Ref) (index : Nat) (value : Val) : Nat × St :=
  match readData s r with
  | some d =>
    let nd := setArrayElementD d index value
    (nd.1, writeData s r nd.2)
  | none => (0, s)

/-- `delete_array_element(index)`: for vector storage set the slot to
`Undefined` (length unchanged); no effect otherwise. -/
def deleteArrayElement (s : St) (r : Ref) (index : Nat) : St :=
  match readData s r with
  | some d =>
    match d.arrayStorage with
    | .vector v =>
      if index < v.length then
        writeData s r { d with arrayStorage := .vector (v.set index .undefined) }
      else s
    | .properties _ => s
  | none => s

/-- `array_element(index)`: vector slot or `Undefined`; for `Properties`
storage, the stored `"index"` property if `index < length`, else `Undefined`. -/
def arrayElement (s : St) (r : Ref) (index : Nat) : Val :=
  match readData s r with
  | some d =>
    match d.arrayStorage with
    | .vector v => v.getD index .undefined
    | .properties len =>
      if index < len then
        match pmGet d.values (usizeToString index) false with
        | some (.stored v _) => v
        | _ => .undefined
      else .undefined
  | none => .undefined

/-- `define_value(name, value, attrs)`: inserts a `Stored` property with the
case-insensitive flag (`false`). -/
def defineValue (s : St) (r : Ref) (name : String) (value : Val) (attrs : Attrs) : St :=
  match readData s r with
  | some d => writeData s r { d with values := pmInsert name (.stored value attrs) false d.values }
  | none => s

/-- `add_property(name, get, set, attrs)`: inserts a `Virtual` property with
the case-insensitive flag (`false`). -/
def addProperty (s : St) (r : Ref) (name : String) (get : Nat) (setter : Option Nat)
    (attrs : Attrs) : St :=
  match readData s r with
  | some d => writeData s r { d with values := pmInsert name (.virt get setter attrs) false d.values }
  | none => s

/-- Modelled from the spec: the activation/context surface the object core
uses — the case-sensitivity flag, the interpreter's coercions, and execution
of getter/setter callables (all outside the given sources). `coerceLenI32 v`
is the result of `v.coerce_to_f64(..).map(|f| f.abs() as i32)` (an `i32` in
`[0, 2^31)` for real executions; the sign is re-checked by the code anyway).
`execRun g this base_proto args s` executes callable `g` and returns its
result (or error) together with the possibly mutated arena. -/
structure Activation where
  caseSensitive : Bool
  coerceToObject : Val → St → Ref × St
  coerceLenI32 : Val → Option Int
  execRun : Nat → Ref → Option Ref → List Val → St → Except Unit Val × St

/-- `has_own_virtual(name)`: the own property exists and is virtual. -/
def hasOwnVirtual (a : Activation) (s : St) (r : Ref) (name : String) : Bool :=
  match readData s r with
  | some d =>
    match pmGet d.values name a.caseSensitive with
    | some p => p.isVirtual
    | none => false
  | none => false

/-- `call_setter(name, value)`: if the own property is virtual, `Property::set`
returns its optional setter callable; otherwise `None`. The map is unchanged. -/
def callSetter (a : Activation) (s : St) (r : Ref) (name : String) (_value : Val) :
    Option Nat :=
  match readData s r with
  | some d =>
    match pmGet d.values name a.caseSensitive with
    | some (.virt _ so _) => so
    | _ => none
  | none => none

/-- `get_local(name, .., this)`: `__proto__` reads the prototype link; an own
stored property returns its value; an own virtual property executes its getter
with `this` the supplied override and `base_proto` the object itself, an
execution error silently becoming `Undefined`; an absent name is `Undefined`. -/
def getLocal (a : Activation) (s : St) (r : Ref) (name : String) (this : Ref) :
    Val × St :=
  match baseOf s r with
  | none => (.undefined, s)
  | some rb =>
    match readData s rb with
    | none => (.undefined, s)
    | some d =>
      if name = "__proto__" then
        (match d.prototype with
         | some p => .object p
         | none => .undefined, s)
      else
        match pmGet d.values name a.caseSensitive with
        | some (.stored v _) => (v, s)
        | some (.virt g _ _) =>
          match a.execRun g this (some rb) [] s with
          | (.ok v, s1) => (v, s1)
          | (.error _, s1) => (.undefined, s1)
        | none => (.undefined, s)

/-- The virtual-setter prototype walk of `internal_set` (fuel-indexed to model
the `while let` loop): starting from a handle, find the first chain object with
an own virtual property of the given name. `none` means the fuel ran out (the
Rust loop would still be running), `some none` that the chain ended without a
holder, `some (some h)` the holder found. -/
def findVirtHolder (a : Activation) (s : St) (name : String) :
    Nat → Option Ref → Option (Option Ref)
  | _, none => some none
  | 0, some _ => none
  | fuel + 1, some p =>
    if hasOwnVirtual a s p name then some (some p)
    else findVirtHolder a s name fuel (protoOf s p)

/-- The `values.entry(name, case_sensitive)` arm of `internal_set`: on the
first matching entry apply `Property::set` (keeping the key), returning any
virtual setter to execute; on a vacant entry insert `Stored { value, ∅ }`. -/
def entryList (name : String) (value : Val) (cs : Bool) :
    PropMap → PropMap × Option Nat
  | [] => ([(name, .stored value attrsEmpty)], none)
  | kv :: rest =>
    if keyEq cs kv.1 name then
      let pr := Property.setVal kv.2 value
      ((kv.1, pr.1) :: rest, pr.2)
    else
      let mr := entryList name value cs rest
      (kv :: mr.1, mr.2)

/-- The stored-value write of `internal_set` (executed when no chain virtual
setter handled the write), including execution of an own virtual setter. -/
def entryWrite (a : Activation) (s : St) (rb : Ref) (name : String) (value : Val)
    (this : Ref) (baseProto : Option Ref) : St :=
  match readData s rb with
  | none => s
  | some d =>
    let mr := entryList name value a.caseSensitive d.values
    let s2 := writeData s rb { d with values := mr.1 }
    match mr.2 with
    | some g => (a.execRun g this baseProto [value] s2).2
    | none => s2

/-- `internal_set(name, value, .., this, base_proto)`, with fuel bounding the
virtual-setter prototype walk (`none` = the Rust loop does not terminate):
`__proto__` assigns the coerced prototype; a name parsing as `usize` writes the
array element; the empty name is a no-op; `"length"` coerces and applies
`set_length` and then falls through; if the own map lacks the name, the chain
is walked for a virtual setter which, if found, handles the write; otherwise
the stored-value write runs. -/
def internalSet (a : Activation) (fuel : Nat) (s : St) (r : Ref) (name : String)
    (value : Val) (this : Ref) (baseProto : Option Ref) : Option St :=
  match baseOf s r with
  | none => some s
  | some rb =>
    if name = "__proto__" then
      let os := a.coerceToObject value s
      match readData os.2 rb with
      | some d => some (writeData os.2 rb { d with prototype := some os.1 })
      | none => some os.2
    else
      match parseUsize name with
      | some index => some (setArrayElement s rb index value).2
      | none =>
        if name = "" then some s
        else
          let s1 :=
            if name = "length" then
              let len : Int := (a.coerceLenI32 value).getD 0
              if len > 0 then setLength s rb len.toNat else setLength s rb 0
            else s
          match readData s1 rb with
          | none => some s1
          | some d1 =>
            if pmContains d1.values name a.caseSensitive then
              some (entryWrite a s1 rb name value this baseProto)
            else
              match findVirtHolder a s1 name fuel (some rb) with
              | none => none
              | some none => some (entryWrite a s1 rb name value this baseProto)
              | some (some holder) =>
                match callSetter a s1 holder name value with
                | some g => some (a.execRun g this (some holder) [value] s1).2
                | none => some s1

/-- `TObject::set(name, value)` for a `ScriptObject`: `internal_set` with
`this` and `base_proto` the object itself. -/
def setOp (a : Activation) (fuel : Nat) (s : St) (r : Ref) (name : String)
    (value : Val) : Option St :=
  internalSet a fuel s r name value r (some r)

/-- The dual-view array invariant of the spec, decidably: when storage is a
vector, the exact `"length"` key (if present) is a stored number equal to the
vector length, and for each `i` below the vector length the exact key `"i"` is
either absent or a stored property whose value is the vector slot. `true` for
`Properties` storage. -/
def vecMirrorB (d : ObjData) : Bool :=
  match d.arrayStorage with
  | .properties _ => true
  | .vector v =>
    (match pmGet d.values "length" true with
     | none => true
     | some (.stored val _) => val == .number v.length
     | some (.virt _ _ _) => false)
    &&
    (List.range v.length).all fun i =>
      match pmGet d.values (usizeToString i) true with
      | none => true
      | some (.stored val _) => val == v.getD i .undefined
      | some (.virt _ _ _) => false

/-- Whether an object's own map lacks the exact key `"__proto__"`. -/
def noProtoData (d : ObjData) : Bool :=
  d.values.all fun kv => !(kv.1 == "__proto__")

/-- Whether no script cell of the arena has a real `"__proto__"` key. -/
def stateNoProtoB (s : St) : Bool :=
  s.cells.all fun c =>
    match c with
    | .script d => noProtoData d
    | .shared _ _ => true

/-- Whether a string starts with an ASCII digit. -/
def startsWithDigit (s : String) : Bool :=
  match s.data with
  | [] => false
  | c :: _ => '0' ≤ c ∧ c ≤ '9'

/-- States of an object reachable from a fresh `ScriptObject::array` by the
array mutations `set_array_element`, `set_length`, and `internal_set` of a
name parsing as an index (`delete_array_element` deliberately excluded). -/
inductive ArrReach : St → Ref → Prop where
  | init (s : St) (proto : Option Ref) : ArrReach (arrayNew s proto).2 (arrayNew s proto).1
  | setElem (s : St) (r : Ref) (i : Nat) (v : Val) (h : ArrReach s r) :
      ArrReach (setArrayElement s r i v).2 r
  | setLen (s : St) (r : Ref) (n : Nat) (h : ArrReach s r) :
      ArrReach (setLength s r n) r
  | iset (a : Activation) (fuel : Nat) (s s' : St) (r this : Ref) (name : String)
      (v : Val) (bp : Option Ref) (i : Nat) (h : ArrReach s r)
      (hp : parseUsize name = some i)
      (hs : internalSet a fuel s r name v this bp = some s') : ArrReach s' r

theorem keyEq_self (cs : Bool) (k : String) : keyEq cs k k = true := by
  unfold keyEq
  cases cs <;> simp

theorem digitVal_natDigitChar (k : Nat) (h : k < 10) :
    digitVal (natDigitChar k) = some k := by
  interval_cases k <;> decide

theorem natDigitsAux_all_digits (fuel n : Nat) :
    ∀ c ∈ natDigitsAux fuel n, (digitVal c).isSome := by
  induction fuel generalizing n with
  | zero => intro c hc; simp [natDigitsAux] at hc
  | succ fuel ih =>
    intro c hc
    unfold natDigitsAux at hc
    by_cases h : n < 10
    · simp [h] at hc
      subst hc
      rw [digitVal_natDigitChar n h]
      rfl
    · simp [h] at hc
      rcases hc with hc | hc
      · exact ih (n / 10) c hc
      · subst hc
        rw [digitVal_natDigitChar _ (Nat.mod_lt n (by omega))]
        rfl

theorem natDigitsAux_ne_nil (fuel n : Nat) (h : 0 < fuel) :
    natDigitsAux fuel n ≠ [] := by
  cases fuel with
  | zero => omega
  | succ fuel =>
    unfold natDigitsAux
    by_cases h10 : n < 10 <;> simp [h10]

theorem parseDigitsGo_append (acc : Nat) (xs ys : List Char) :
    parseDigitsGo acc (xs ++ ys) =
      match parseDigitsGo acc xs with
      | some m => parseDigitsGo m ys
      | none => none := by
  induction xs generalizing acc with
  | nil => simp [parseDigitsGo]
  | cons c cs ih =>
    simp only [List.cons_append, parseDigitsGo]
    cases digitVal c with
    | none => rfl
    | some d => exact ih _

theorem parseDigitsGo_natDigitsAux (fuel n acc : Nat) (h : n < fuel) :
    parseDigitsGo acc (natDigitsAux fuel n) =
      some (acc * 10 ^ (natDigitsAux fuel n).length + n) := by
  induction fuel generalizing n acc with
  | zero => omega
  | succ fuel ih =>
    unfold natDigitsAux
    by_cases h10 : n < 10
    · simp only [h10, if_true]
      simp [parseDigitsGo, digitVal_natDigitChar n h10]
      omega
    · simp only [h10, if_false]
      have hlt : n / 10 < fuel := by
        have := Nat.div_lt_self (by omega : 0 < n) (by omega : 1 < 10)
        omega
      rw [parseDigitsGo_append]
      rw [ih (n / 10) acc hlt]
      simp [parseDigitsGo, digitVal_natDigitChar _ (Nat.mod_lt n (by omega))]
      rw [Nat.pow_succ]
      have hdm := Nat.div_add_mod n 10
      ring_nf
      omega

theorem usizeToString_all_digits (n : Nat) :
    ∀ c ∈ (usizeToString n).data, (digitVal c).isSome := by
  intro c hc
  exact natDigitsAux_all_digits (n + 1) n c hc

theorem usizeToString_inj (m n : Nat) (h : usizeToString m = usizeToString n) :
    m = n := by
  have hd : natDigitsAux (m + 1) m = natDigitsAux (n + 1) n := by
    have := congrArg String.data h
    simpa [usizeToString] using this
  have hm := parseDigitsGo_natDigitsAux (m + 1) m 0 (Nat.lt_succ_self m)
  have hn := parseDigitsGo_natDigitsAux (n + 1) n 0 (Nat.lt_succ_self n)
  rw [hd] at hm
  rw [hm] at hn
  simp at hn
  omega

theorem foldChar_digit (c : Char) (h : (digitVal c).isSome) : foldChar c = c := by
  unfold digitVal at h
  by_cases hd : '0' ≤ c ∧ c ≤ '9'
  · unfold foldChar
    have : ¬('A' ≤ c ∧ c ≤ 'Z') := by
      intro hAZ
      have h9 : c.toNat ≤ 57 := hd.2
      have hA : 65 ≤ c.toNat := hAZ.1
      omega
    simp [this]
  · simp [hd] at h

theorem list_map_id_on {α : Type} (f : α → α) :
    ∀ l : List α, (∀ c ∈ l, f c = c) → l.map f = l := by
  intro l
  induction l with
  | nil => intro _; rfl
  | cons c cs ih =>
    intro h
    simp only [List.map_cons]
    rw [h c (by simp), ih (fun x hx => h x (by simp [hx]))]

theorem asciiFold_usizeToString (n : Nat) :
    asciiFold (usizeToString n) = usizeToString n := by
  unfold asciiFold
  have hmap : (usizeToString n).data.map foldChar = (usizeToString n).data :=
    list_map_id_on foldChar (usizeToString n).data
      (fun c hc => foldChar_digit c (usizeToString_all_digits n c hc))
  rw [hmap]

theorem usizeToString_ne_of_nondigit (n : Nat) (s : String) (c : Char)
    (hc : c ∈ s.data) (hnd : digitVal c = none) : usizeToString n ≠ s := by
  intro h
  have := usizeToString_all_digits n c (by rw [h]; exact hc)
  rw [hnd] at this
  simp at this

theorem usizeToString_ne_length (n : Nat) : usizeToString n ≠ "length" :=
  usizeToString_ne_of_nondigit n "length" 'l' (by decide) (by decide)

theorem usizeToString_ne_proto (n : Nat) : usizeToString n ≠ "__proto__" :=
  usizeToString_ne_of_nondigit n "__proto__" '_' (by decide) (by decide)

theorem keyEq_false_eq (a b : String) :
    keyEq false a b = (asciiFold a == asciiFold b) := rfl

theorem keyEq_usize_usize (m n : Nat) :
    keyEq false (usizeToString m) (usizeToString n) = true ↔ m = n := by
  rw [keyEq_false_eq, asciiFold_usizeToString, asciiFold_usizeToString]
  constructor
  · intro h
    exact usizeToString_inj m n (by simpa using h)
  · intro h
    subst h
    simp

theorem keyEq_usize_length (n : Nat) :
    keyEq false (usizeToString n) "length" = false := by
  rw [keyEq_false_eq, asciiFold_usizeToString]
  have : asciiFold "length" = "length" := by decide
  rw [this]
  simp [usizeToString_ne_length n]

theorem keyEq_length_usize (n : Nat) :
    keyEq false "length" (usizeToString n) = false := by
  rw [keyEq_false_eq, asciiFold_usizeToString]
  have : asciiFold "length" = "length" := by decide
  rw [this]
  simp
  intro h
  exact usizeToString_ne_length n h.symm

theorem listResize_length (l : List Val) (n : Nat) (f : Val) :
    (listResize l n f).length = n := by
  unfold listResize
  simp [List.length_take, List.length_replicate]
  omega

theorem listResize_getD (l : List Val) (n j : Nat) (h : j < n) :
    (listResize l n .undefined).getD j .undefined =
      if j < l.length then l.getD j .undefined else .undefined := by
  unfold listResize
  by_cases hl : j < l.length
  · rw [List.getD_append]
    · simp [hl, List.getD_eq_getElem?_getD, List.getElem?_take, h]
    · simp [List.length_take]
      omega
  · have hln : (l.take n).length ≤ j := by
      simp [List.length_take]
      omega
    have htake : l.take n = l := List.take_of_length_le (by omega)
    rw [List.getD_append_right _ _ _ _ hln]
    simp [hl, List.getD_eq_getElem?_getD, List.getElem?_replicate]
    split <;> rfl

theorem listSet_getD_self (l : List Val) (i : Nat) (a : Val) (h : i < l.length) :
    (l.set i a).getD i .undefined = a := by
  simp [List.getD_eq_getElem?_getD, List.getElem?_set_eq_of_lt a h]

theorem listSet_getD_ne (l : List Val) (i j : Nat) (a : Val) (h : i ≠ j) :
    (l.set i a).getD j .undefined = l.getD j .undefined := by
  simp [List.getD_eq_getElem?_getD, List.getElem?_set_ne h]

theorem keyEq_false_symm (a b : String) :
    keyEq false a b = keyEq false b a := by
  simp only [keyEq_false_eq]
  by_cases h : asciiFold a = asciiFold b
  · simp [h]
  · have h2 : ¬ asciiFold b = asciiFold a := fun hh => h hh.symm
    simp [h, h2]

theorem keyEq_false_congr (a b probe : String) (hab : keyEq false a b = true)
    (hb : keyEq false b probe = true) : keyEq false a probe = true := by
  simp only [keyEq_false_eq] at hab hb ⊢
  simp only [beq_iff_eq] at hab hb ⊢
  rw [hab, hb]

theorem pmGet_mem (m : PropMap) (name : String) (cs : Bool) (p : Property)
    (h : pmGet m name cs = some p) :
    ∃ k, (k, p) ∈ m ∧ keyEq cs k name = true := by
  induction m with
  | nil => simp [pmGet] at h
  | cons kv rest ih =>
    unfold pmGet at h
    by_cases hk : keyEq cs kv.1 name
    · simp [hk] at h
      subst h
      exact ⟨kv.1, by simp, hk⟩
    · simp [hk] at h
      obtain ⟨k, hm, hkeq⟩ := ih h
      exact ⟨k, by simp [hm], hkeq⟩

theorem pmGet_eq_none_iff (m : PropMap) (name : String) (cs : Bool) :
    pmGet m name cs = none ↔ ∀ kv ∈ m, keyEq cs kv.1 name = false := by
  induction m with
  | nil => simp [pmGet]
  | cons kv rest ih =>
    unfold pmGet
    by_cases hk : keyEq cs kv.1 name
    · simp only [hk, if_true]
      constructor
      · intro h
        cases h
      · intro hall
        have := hall kv (by simp)
        rw [hk] at this
        cases this
    · rw [if_neg hk]
      rw [ih]
      constructor
      · intro hall kv2 hm2
        rcases List.mem_cons.mp hm2 with hh | hh
        · subst hh
          exact Bool.eq_false_iff.mpr hk
        · exact hall kv2 hh
      · intro hall kv2 hm2
        exact hall kv2 (by simp [hm2])

theorem pmGet_isSome_of_mem (m : PropMap) (name : String) (cs : Bool)
    (k : String) (p : Property) (hm : (k, p) ∈ m) (hk : keyEq cs k name = true) :
    (pmGet m name cs).isSome := by
  cases hget : pmGet m name cs with
  | some q => rfl
  | none =>
    have := (pmGet_eq_none_iff m name cs).mp hget (k, p) hm
    rw [hk] at this
    cases this

/-- Distinctness of the (folded) keys of a property map: no two entries share
a case-insensitively equal key. -/
def KeysDistinct (m : PropMap) : Prop :=
  m.Pairwise fun kv1 kv2 => keyEq false kv1.1 kv2.1 = false

theorem syncList_none_sublist (name : String) (e : Bool) (m : PropMap) :
    (syncList name none e m).Sublist m := by
  induction m with
  | nil => simp [syncList]
  | cons kv rest ih =>
    unfold syncList
    by_cases hk : keyEq false kv.1 name
    · cases hp : kv.2 with
      | stored v0 a => simp [hk, hp]
      | virt g so a =>
        simp only [hk, if_true, hp]
        have hkv : kv = (kv.1, Property.virt g so a) := by
          cases kv
          simp at hp ⊢
          exact hp
        rw [← hkv]
    · simp only [hk, if_false]
      exact ih.cons₂ kv

theorem KeysDistinct_sublist (m1 m2 : PropMap) (hs : m1.Sublist m2)
    (hd : KeysDistinct m2) : KeysDistinct m1 :=
  List.Pairwise.sublist hs hd

theorem pmGet_none_of_sublist (m1 m2 : PropMap) (name : String) (cs : Bool)
    (hs : m1.Sublist m2) (h : pmGet m2 name cs = none) :
    pmGet m1 name cs = none := by
  rw [pmGet_eq_none_iff] at h ⊢
  intro kv hm
  exact h kv (hs.subset hm)

theorem syncList_remove_absent (name : String) (e : Bool) (m : PropMap)
    (hd : KeysDistinct m)
    (hv : ∀ k g so a, (k, Property.virt g so a) ∈ m → keyEq false k name = false) :
    pmGet (syncList name none e m) name false = none := by
  induction m with
  | nil => simp [syncList, pmGet]
  | cons kv rest ih =>
    unfold syncList
    by_cases hk : keyEq false kv.1 name
    · cases hp : kv.2 with
      | stored v0 a =>
        simp only [hk, if_true, hp]
        rw [pmGet_eq_none_iff]
        intro kv2 hm2
        by_contra hkv2
        simp only [Bool.not_eq_false] at hkv2
        have hpair : keyEq false kv.1 kv2.1 = false :=
          (List.pairwise_cons.mp hd).1 kv2 hm2
        have hkk : keyEq false kv.1 kv2.1 = true :=
          keyEq_false_congr kv.1 name kv2.1 hk
            (by rw [keyEq_false_symm]; exact hkv2)
        rw [hpair] at hkk
        cases hkk
      | virt g so a =>
        have hkv : kv = (kv.1, Property.virt g so a) := by
          rw [← hp]
        have := hv kv.1 g so a (by rw [← hkv]; simp)
        rw [hk] at this
        cases this
    · rw [if_neg hk]
      unfold pmGet
      rw [if_neg hk]
      exact ih (List.pairwise_cons.mp hd).2
        (fun k g so a hm => hv k g so a (by simp [hm]))

theorem syncList_mem_some (name : String) (v : Val) (e : Bool) (m : PropMap)
    (hd : KeysDistinct m) :
    ∀ kv ∈ syncList name (some v) e m,
      (kv ∈ m ∧ keyEq false kv.1 name = false)
      ∨ (∃ k v0 a, (k, Property.stored v0 a) ∈ m ∧ keyEq false k name = true ∧
           kv = (k, Property.stored v a))
      ∨ (∃ k g so a, (k, Property.virt g so a) ∈ m ∧ keyEq false k name = true ∧
           kv = (k, Property.virt g so a))
      ∨ ((∀ kv2 ∈ m, keyEq false kv2.1 name = false) ∧
           kv = (name, Property.stored v (syncAttrs e))) := by
  induction m with
  | nil =>
    intro kv hkv
    simp [syncList] at hkv
    right; right; right
    exact ⟨by simp, hkv⟩
  | cons kv0 rest ih =>
    intro kv hkv
    unfold syncList at hkv
    by_cases hk : keyEq false kv0.1 name
    · have htail : ∀ kv2 ∈ rest, kv2 ∈ kv0 :: rest ∧ keyEq false kv2.1 name = false := by
        intro kv2 hm2
        refine ⟨by simp [hm2], ?_⟩
        by_contra hc
        simp only [Bool.not_eq_false] at hc
        have hpair : keyEq false kv0.1 kv2.1 = false :=
          (List.pairwise_cons.mp hd).1 kv2 hm2
        have : keyEq false kv0.1 kv2.1 = true :=
          keyEq_false_congr kv0.1 name kv2.1 hk
            (by rw [keyEq_false_symm]; exact hc)
        rw [hpair] at this
        cases this
      cases hp : kv0.2 with
      | stored v0 a =>
        rw [if_pos hk] at hkv
        rw [hp] at hkv
        rcases List.mem_cons.mp hkv with hh | hh
        · right; left
          refine ⟨kv0.1, v0, a, ?_, hk, hh⟩
          have : kv0 = (kv0.1, Property.stored v0 a) := by rw [← hp]
          rw [← this]; simp
        · left
          exact (htail kv hh)
      | virt g so a =>
        rw [if_pos hk] at hkv
        rw [hp] at hkv
        rcases List.mem_cons.mp hkv with hh | hh
        · right; right; left
          refine ⟨kv0.1, g, so, a, ?_, hk, hh⟩
          have : kv0 = (kv0.1, Property.virt g so a) := by rw [← hp]
          rw [← this]; simp
        · left
          exact (htail kv hh)
    · rw [if_neg hk] at hkv
      rcases List.mem_cons.mp hkv with hh | hh
      · left
        subst hh
        exact ⟨by simp, Bool.eq_false_iff.mpr hk⟩
      · rcases ih (List.pairwise_cons.mp hd).2 kv hh with h1 | h2 | h3 | h4
        · exact Or.inl ⟨by simp [h1.1], h1.2⟩
        · obtain ⟨k, v0, a, hm, hke, he⟩ := h2
          exact Or.inr (Or.inl ⟨k, v0, a, by simp [hm], hke, he⟩)
        · obtain ⟨k, g, so, a, hm, hke, he⟩ := h3
          exact Or.inr (Or.inr (Or.inl ⟨k, g, so, a, by simp [hm], hke, he⟩))
        · refine Or.inr (Or.inr (Or.inr ⟨?_, h4.2⟩))
          intro kv2 hm2
          rcases List.mem_cons.mp hm2 with hh2 | hh2
          · subst hh2
            exact Bool.eq_false_iff.mpr hk
          · exact h4.1 kv2 hh2

theorem syncList_keys (name : String) (nv : Option Val) (e : Bool) (m : PropMap) :
    ((syncList name nv e m).map Prod.fst).Sublist (m.map Prod.fst)
    ∨ ((syncList name nv e m).map Prod.fst = m.map Prod.fst ++ [name]
        ∧ ∀ kv ∈ m, keyEq false kv.1 name = false) := by
  induction m with
  | nil =>
    cases nv with
    | none => left; simp [syncList]
    | some v => right; simp [syncList]
  | cons kv0 rest ih =>
    unfold syncList
    by_cases hk : keyEq false kv0.1 name
    · rw [if_pos hk]
      cases hp : kv0.2 with
      | stored v0 a =>
        cases nv with
        | some v => left; simp
        | none =>
          left
          simp only [List.map_cons]
          exact (List.Sublist.refl _).cons _
      | virt g so a =>
        left
        simp only [List.map_cons]
        exact List.Sublist.refl _
    · rw [if_neg hk]
      rcases ih with h1 | h2
      · left
        simp only [List.map_cons]
        exact h1.cons₂ _
      · right
        constructor
        · simp only [List.map_cons, h2.1, List.cons_append]
        · intro kv hm
          rcases List.mem_cons.mp hm with hh | hh
          · subst hh
            exact Bool.eq_false_iff.mpr hk
          · exact h2.2 kv hh

theorem KeysDistinct_map (m : PropMap) :
    KeysDistinct m ↔
      (m.map Prod.fst).Pairwise fun k1 k2 => keyEq false k1 k2 = false := by
  unfold KeysDistinct
  rw [List.pairwise_map]

theorem KeysDistinct_syncList (name : String) (nv : Option Val) (e : Bool)
    (m : PropMap) (hd : KeysDistinct m) : KeysDistinct (syncList name nv e m) := by
  rw [KeysDistinct_map]
  rw [KeysDistinct_map] at hd
  rcases syncList_keys name nv e m with h1 | h2
  · exact List.Pairwise.sublist h1 hd
  · rw [h2.1]
    rw [List.pairwise_append]
    refine ⟨hd, by simp, ?_⟩
    intro a ha b hb
    simp at hb
    subst hb
    obtain ⟨kv, hkv, hfst⟩ := List.mem_map.mp ha
    subst hfst
    exact h2.2 kv hkv

theorem entryList_keys (name : String) (v : Val) (cs : Bool) (m : PropMap) :
    ((entryList name v cs m).1).map Prod.fst = m.map Prod.fst
    ∨ ((entryList name v cs m).1).map Prod.fst = m.map Prod.fst ++ [name] := by
  induction m with
  | nil => right; simp [entryList]
  | cons kv0 rest ih =>
    unfold entryList
    by_cases hk : keyEq cs kv0.1 name
    · rw [if_pos hk]
      left; simp
    · rw [if_neg hk]
      rcases ih with h1 | h2
      · left; simp [h1]
      · right; simp [h2]

theorem pmInsert_keys (name : String) (p : Property) (cs : Bool) (m : PropMap) :
    (pmContains m name cs = true ∧ (pmInsert name p cs m).map Prod.fst = m.map Prod.fst)
    ∨ (pmContains m name cs = false ∧
        (pmInsert name p cs m).map Prod.fst = m.map Prod.fst ++ [name]) := by
  induction m with
  | nil => right; simp [pmInsert, pmContains, pmGet]
  | cons kv0 rest ih =>
    unfold pmInsert pmContains pmGet
    by_cases hk : keyEq cs kv0.1 name
    · rw [if_pos hk, if_pos hk]
      left
      simp
  
    · rw [if_neg hk, if_neg hk]
      rcases ih with h1 | h2
      · left
        unfold pmContains at h1
        exact ⟨h1.1, by simp [h1.2]⟩
      · right
        unfold pmContains at h2
        exact ⟨h2.1, by simp [h2.2]⟩

theorem pmGet_pmInsert_self (name : String) (p : Property) (cs : Bool) (m : PropMap) :
    pmGet (pmInsert name p cs m) name cs = some p := by
  induction m with
  | nil => simp [pmInsert, pmGet, keyEq_self]
  | cons kv0 rest ih =>
    unfold pmInsert
    by_cases hk : keyEq cs kv0.1 name
    · rw [if_pos hk]
      unfold pmGet
      rw [if_pos hk]
    · rw [if_neg hk]
      unfold pmGet
      rw [if_neg hk]
      exact ih

theorem pmGet_syncList_self (name : String) (v : Val) (e : Bool) (m : PropMap)
    (h : pmGet m name false = none ∨
      ∃ v0 a, pmGet m name false = some (Property.stored v0 a)) :
    ∃ a, pmGet (syncList name (some v) e m) name false = some (Property.stored v a) := by
  induction m with
  | nil =>
    refine ⟨syncAttrs e, ?_⟩
    simp [syncList, pmGet, keyEq_self]
  | cons kv0 rest ih =>
    unfold syncList
    by_cases hk : keyEq false kv0.1 name
    · rw [if_pos hk]
      have hget : pmGet (kv0 :: rest) name false = some kv0.2 := by
        unfold pmGet
        rw [if_pos hk]
      cases hp : kv0.2 with
      | stored v0 a =>
        refine ⟨a, ?_⟩
        unfold pmGet
        rw [if_pos hk]
      | virt g so a =>
        rw [hget, hp] at h
        rcases h with h | ⟨v1, a1, h⟩
        · cases h
        · cases h
    · rw [if_neg hk]
      have hget : pmGet (kv0 :: rest) name false = pmGet rest name false := by
        conv_lhs => unfold pmGet
        rw [if_neg hk]
      rw [hget] at h
      obtain ⟨a, ha⟩ := ih h
      refine ⟨a, ?_⟩
      unfold pmGet
      rw [if_neg hk]
      exact ha

theorem lt_length_of_getElem? (l : List Cell) (r : Nat) (c : Cell)
    (h : l[r]? = some c) : r < l.length := by
  by_contra hle
  rw [List.getElem?_eq_none (by omega)] at h
  cases h

theorem baseOf_script (s : St) (r : Ref) (d : ObjData)
    (h : s.cells[r]? = some (.script d)) : baseOf s r = some r := by
  unfold baseOf
  rw [h]

theorem readData_script (s : St) (r : Ref) (d : ObjData)
    (h : s.cells[r]? = some (.script d)) : readData s r = some d := by
  unfold readData
  rw [baseOf_script s r d h]
  dsimp only
  rw [h]

theorem writeData_script (s : St) (r : Ref) (d d' : ObjData)
    (h : s.cells[r]? = some (.script d)) :
    writeData s r d' = ⟨s.cells.set r (.script d')⟩ := by
  unfold writeData
  rw [baseOf_script s r d h]

theorem writeData_cells_self (s : St) (r : Ref) (d d' : ObjData)
    (h : s.cells[r]? = some (.script d)) :
    (writeData s r d').cells[r]? = some (.script d') := by
  rw [writeData_script s r d d' h]
  exact List.getElem?_set_eq_of_lt _ (lt_length_of_getElem? s.cells r _ h)

theorem writeData_cells_other (s : St) (r : Ref) (d d' : ObjData) (r2 : Nat)
    (h : s.cells[r]? = some (.script d)) (hne : r ≠ r2) :
    (writeData s r d').cells[r2]? = s.cells[r2]? := by
  rw [writeData_script s r d d' h]
  exact List.getElem?_set_ne hne

theorem readData_writeData_self (s : St) (r : Ref) (d d' : ObjData)
    (h : s.cells[r]? = some (.script d)) :
    readData (writeData s r d') r = some d' :=
  readData_script _ r d' (writeData_cells_self s r d d' h)

theorem objectNew_fst (s : St) (proto : Option Ref) :
    (objectNew s proto).1 = s.cells.length := rfl

theorem objectNew_cells (s : St) (proto : Option Ref) :
    (objectNew s proto).2.cells[s.cells.length]? = some (.script (objectNewData proto)) := by
  unfold objectNew alloc
  simp

theorem arrayNew_fst (s : St) (proto : Option Ref) :
    (arrayNew s proto).1 = s.cells.length := rfl

theorem arrayNew_cells (s : St) (proto : Option Ref) :
    (arrayNew s proto).2.cells[s.cells.length]? =
      some (.script ⟨proto, [("length", .stored (.number 0) attrsDontEnum)],
        .vector [], "object", []⟩) := by
  unfold arrayNew alloc syncNative
  simp only []
  have hcell : (St.mk (s.cells ++ [Cell.script ⟨proto, [], .vector [], "object", []⟩])).cells[s.cells.length]? =
      some (Cell.script ⟨proto, [], .vector [], "object", []⟩) := by
    simp
  rw [readData_script _ _ _ hcell]
  have := writeData_cells_self _ s.cells.length _
    (syncD ⟨proto, [], .vector [], "object", []⟩ "length" (some (.number 0)) false) hcell
  rw [show syncD ⟨proto, [], .vector [], "object", []⟩ "length" (some (.number 0)) false =
      (⟨proto, [("length", .stored (.number 0) attrsDontEnum)], .vector [], "object", []⟩ : ObjData) from rfl] at this
  exact this

/-- A `"length"`-keyed stored entry (any value). -/
def LenEntry (kv : String × Property) : Prop :=
  kv.1 = "length" ∧ ∃ w a, kv.2 = Property.stored w a

/-- A stringified-index entry mirroring the vector slot. -/
def IdxEntry (v : List Val) (kv : String × Property) : Prop :=
  ∃ j a, kv.1 = usizeToString j ∧ j < v.length ∧
    kv.2 = Property.stored (v.getD j .undefined) a

/-- Mid-operation entry shape: `"length"` stored with any value, or a correct
index mirror. -/
def QEntry (v : List Val) (kv : String × Property) : Prop :=
  LenEntry kv ∨ IdxEntry v kv

/-- Entry shape of the synchronized vector-array state: `"length"` stored with
the vector length, or a correct index mirror. -/
def GoodEntry (v : List Val) (kv : String × Property) : Prop :=
  (kv.1 = "length" ∧ ∃ a, kv.2 = Property.stored (.number v.length) a) ∨ IdxEntry v kv

theorem syncLength_good (v' : List Val) (m : PropMap) (hd : KeysDistinct m)
    (hall : ∀ kv ∈ m, QEntry v' kv) :
    ∀ kv ∈ syncList "length" (some (.number v'.length)) false m, GoodEntry v' kv := by
  intro kv hkv
  rcases syncList_mem_some "length" (.number v'.length) false m hd kv hkv with
    ⟨hm, hne⟩ | ⟨k, v0, a, hm, hke, he⟩ | ⟨k, g, so, a, hm, hke, he⟩ | ⟨_, he⟩
  · rcases hall kv hm with ⟨hlen, _⟩ | hidx
    · rw [hlen] at hne
      rw [keyEq_self] at hne
      cases hne
    · exact Or.inr hidx
  · rcases hall (k, Property.stored v0 a) hm with ⟨hlen, _⟩ | hidx
    · simp only at hlen
      subst hlen
      subst he
      exact Or.inl ⟨rfl, a, rfl⟩
    · obtain ⟨j, a2, hk2, _, _⟩ := hidx
      simp only at hk2
      subst hk2
      rw [keyEq_usize_length] at hke
      cases hke
  · rcases hall (k, Property.virt g so a) hm with ⟨_, w, a2, hst⟩ | hidx
    · cases hst
    · obtain ⟨j, a2, _, _, hst⟩ := hidx
      cases hst
  · subst he
    exact Or.inl ⟨rfl, syncAttrs false, rfl⟩

/-- Entry shape before the index sync of `set_array_element`: index mirrors are
correct for the updated vector except possibly at the written index. -/
def PreIdxEntry (v' : List Val) (i : Nat) (kv : String × Property) : Prop :=
  LenEntry kv ∨
    ∃ j a w, kv.1 = usizeToString j ∧ j < v'.length ∧ kv.2 = Property.stored w a ∧
      (j ≠ i → w = v'.getD j .undefined)

theorem syncIdx_good (v' : List Val) (i : Nat) (val : Val) (m : PropMap)
    (hd : KeysDistinct m) (hi : i < v'.length) (hvi : v'.getD i .undefined = val)
    (hall : ∀ kv ∈ m, PreIdxEntry v' i kv) :
    ∀ kv ∈ syncList (usizeToString i) (some val) true m, QEntry v' kv := by
  intro kv hkv
  rcases syncList_mem_some (usizeToString i) val true m hd kv hkv with
    ⟨hm, hne⟩ | ⟨k, v0, a, hm, hke, he⟩ | ⟨k, g, so, a, hm, hke, he⟩ | ⟨_, he⟩
  · rcases hall kv hm with hlen | ⟨j, a, w, hk2, hj, hst, hwne⟩
    · exact Or.inl hlen
    · right
      refine ⟨j, a, hk2, hj, ?_⟩
      rw [hk2] at hne
      have hji : j ≠ i := by
        intro hh
        subst hh
        rw [keyEq_self] at hne
        cases hne
      rw [hst, hwne hji]
  · rcases hall (k, Property.stored v0 a) hm with ⟨hlen, _⟩ | ⟨j, a2, w, hk2, hj, _, _⟩
    · simp only at hlen
      subst hlen
      rw [keyEq_length_usize] at hke
      cases hke
    · simp only at hk2
      subst hk2
      have hji : j = i := (keyEq_usize_usize j i).mp hke
      subst hji
      subst he
      right
      exact ⟨j, a, rfl, hj, by rw [hvi]⟩
  · rcases hall (k, Property.virt g so a) hm with ⟨_, w, a2, hst⟩ | ⟨_, _, _, _, _, hst, _⟩
    · cases hst
    · cases hst
  · subst he
    right
    exact ⟨i, syncAttrs true, rfl, hi, by rw [hvi]⟩

/-- Strengthened invariant of a vector-array object's data: storage is a
vector, and every property entry is either the length mirror or a correct
index mirror, with fold-distinct keys. -/
def VecInv (d : ObjData) : Prop :=
  ∃ v, d.arrayStorage = ArrayStorage.vector v ∧
    (∀ kv ∈ d.values, GoodEntry v kv) ∧ KeysDistinct d.values

theorem foldl_syncD_values (l : List Nat) (d : ObjData) :
    l.foldl (fun dd i => syncD dd (usizeToString i) none true) d =
      { d with
        values := l.foldl (fun mm i => syncList (usizeToString i) none true mm) d.values } := by
  induction l generalizing d with
  | nil => simp
  | cons i rest ih =>
    simp only [List.foldl_cons]
    rw [ih]
    rfl

theorem foldRemove_spec (l : List Nat) (m : PropMap) (hd : KeysDistinct m)
    (hstored : ∀ kv ∈ m, ∃ w a, kv.2 = Property.stored w a) :
    (l.foldl (fun mm i => syncList (usizeToString i) none true mm) m).Sublist m ∧
      ∀ i ∈ l,
        pmGet (l.foldl (fun mm i => syncList (usizeToString i) none true mm) m)
          (usizeToString i) false = none := by
  induction l generalizing m with
  | nil => exact ⟨List.Sublist.refl m, by simp⟩
  | cons i rest ih =>
    simp only [List.foldl_cons]
    have hs1 : (syncList (usizeToString i) none true m).Sublist m :=
      syncList_none_sublist _ _ m
    have hd1 : KeysDistinct (syncList (usizeToString i) none true m) :=
      KeysDistinct_sublist _ _ hs1 hd
    have hstored1 : ∀ kv ∈ syncList (usizeToString i) none true m,
        ∃ w a, kv.2 = Property.stored w a :=
      fun kv hkv => hstored kv (hs1.subset hkv)
    obtain ⟨hsub, habs⟩ := ih _ hd1 hstored1
    refine ⟨hsub.trans hs1, ?_⟩
    intro j hj
    rcases List.mem_cons.mp hj with hh | hh
    · subst hh
      have hrm : pmGet (syncList (usizeToString j) none true m) (usizeToString j) false
          = none := by
        apply syncList_remove_absent _ _ _ hd
        intro k g so a hm
        obtain ⟨w, a2, hst⟩ := hstored (k, Property.virt g so a) hm
        cases hst
      exact pmGet_none_of_sublist _ _ _ _ hsub hrm
    · exact habs j hh

theorem setArrayElementD_inv (d : ObjData) (i : Nat) (val : Val) (hinv : VecInv d) :
    VecInv (setArrayElementD d i val).2 := by
  obtain ⟨v0, hst, hall, hd⟩ := hinv
  unfold setArrayElementD
  have hd1v : (syncD d (usizeToString i) (some val) true).arrayStorage =
      ArrayStorage.vector v0 := hst
  simp only [hd1v]
  set v1 := if i ≥ v0.length then listResize v0 (i + 1) .undefined else v0 with hv1
  set v2 := v1.set i val with hv2
  have hlen1 : v1.length = if i ≥ v0.length then i + 1 else v0.length := by
    rw [hv1]
    by_cases hge : i ≥ v0.length
    · simp [hge, listResize_length]
    · simp [hge]
  have hlen2 : v2.length = v1.length := by
    rw [hv2, List.length_set]
  have hiv2 : i < v2.length := by
    rw [hlen2, hlen1]
    by_cases hge : i ≥ v0.length <;> simp [hge] <;> omega
  have hlen02 : v0.length ≤ v2.length := by
    rw [hlen2, hlen1]
    by_cases hge : i ≥ v0.length <;> simp [hge] <;> omega
  have hv2i : v2.getD i .undefined = val := by
    rw [hv2]
    apply listSet_getD_self
    rw [hlen2] at hiv2
    exact hiv2
  have hv2j : ∀ j, j < v0.length → j ≠ i → v2.getD j .undefined = v0.getD j .undefined := by
    intro j hj hne
    rw [hv2, listSet_getD_ne _ _ _ _ (fun hh => hne hh.symm)]
    rw [hv1]
    by_cases hge : i ≥ v0.length
    · simp only [hge, if_true]
      rw [listResize_getD _ _ _ (by omega)]
      simp [hj]
    · simp [hge]
  have hpre : ∀ kv ∈ d.values, PreIdxEntry v2 i kv := by
    intro kv hkv
    rcases hall kv hkv with ⟨hk, a, hp⟩ | ⟨j, a, hk, hj, hp⟩
    · exact Or.inl ⟨hk, _, a, hp⟩
    · right
      exact ⟨j, a, v0.getD j .undefined, hk, by omega, hp,
        fun hne => (hv2j j hj hne).symm⟩
  have hq : ∀ kv ∈ syncList (usizeToString i) (some val) true d.values, QEntry v2 kv :=
    syncIdx_good v2 i val d.values hd hiv2 hv2i hpre
  have hd2 : KeysDistinct (syncList (usizeToString i) (some val) true d.values) :=
    KeysDistinct_syncList _ _ _ _ hd
  refine ⟨v2, rfl, ?_, ?_⟩
  · exact syncLength_good v2 _ hd2 hq
  · exact KeysDistinct_syncList _ _ _ _ hd2

theorem setLengthD_inv (d : ObjData) (n : Nat) (hinv : VecInv d) :
    VecInv (setLengthD d n) := by
  obtain ⟨v0, hst, hall, hd⟩ := hinv
  unfold setLengthD
  rw [hst]
  simp only []
  set v' := listResize v0 n .undefined with hv'
  have hlen' : v'.length = n := listResize_length v0 n .undefined
  have hstored : ∀ kv ∈ d.values, ∃ w a, kv.2 = Property.stored w a := by
    intro kv hkv
    rcases hall kv hkv with ⟨_, a, hp⟩ | ⟨j, a, _, _, hp⟩
    · exact ⟨_, a, hp⟩
    · exact ⟨_, a, hp⟩
  set d1 : ObjData := { d with arrayStorage := ArrayStorage.vector v' } with hd1def
  by_cases hshrink : n < v0.length
  · simp only [hshrink, if_true]
    rw [foldl_syncD_values]
    set m2 := (List.range' n (v0.length - n)).foldl
      (fun mm i => syncList (usizeToString i) none true mm) d1.values with hm2
    obtain ⟨hsub, habs⟩ := foldRemove_spec (List.range' n (v0.length - n)) d1.values hd hstored
    have hq : ∀ kv ∈ m2, QEntry v' kv := by
      intro kv hkv
      have hkv0 : kv ∈ d.values := hsub.subset hkv
      rcases hall kv hkv0 with ⟨hk, a, hp⟩ | ⟨j, a, hk, hj, hp⟩
      · exact Or.inl ⟨hk, _, a, hp⟩
      · have hjn : j < n := by
          by_contra hge
          have hjr : j ∈ List.range' n (v0.length - n) := by
            rw [List.mem_range'_1]
            omega
          have habs2 := habs j hjr
          have hmem2 : (pmGet m2 (usizeToString j) false).isSome := by
            apply pmGet_isSome_of_mem m2 _ false kv.1 kv.2
            · simp [hkv]
            · rw [hk]
              exact keyEq_self false _
          rw [habs2] at hmem2
          cases hmem2
        right
        refine ⟨j, a, hk, by rw [hlen']; omega, ?_⟩
        rw [hp]
        have : v'.getD j .undefined = v0.getD j .undefined := by
          rw [hv', listResize_getD _ _ _ hjn]
          simp [hj]
        rw [this]
    have hdm2 : KeysDistinct m2 := KeysDistinct_sublist _ _ hsub hd
    refine ⟨v', rfl, ?_, ?_⟩
    · have := syncLength_good v' m2 hdm2 hq
      rw [hlen'] at this
      exact this
    · exact KeysDistinct_syncList _ _ _ _ hdm2
  · simp only [hshrink, if_false]
    have hq : ∀ kv ∈ d1.values, QEntry v' kv := by
      intro kv hkv
      rcases hall kv hkv with ⟨hk, a, hp⟩ | ⟨j, a, hk, hj, hp⟩
      · exact Or.inl ⟨hk, _, a, hp⟩
      · right
        refine ⟨j, a, hk, by rw [hlen']; omega, ?_⟩
        rw [hp]
        have : v'.getD j .undefined = v0.getD j .undefined := by
          rw [hv', listResize_getD _ _ _ (by omega)]
          simp [hj]
        rw [this]
    refine ⟨v', rfl, ?_, ?_⟩
    · have := syncLength_good v' d1.values hd hq
      rw [hlen'] at this
      exact this
    · exact KeysDistinct_syncList _ _ _ _ hd

theorem internalSet_numeric (a : Activation) (fuel : Nat) (s : St) (r : Ref)
    (name : String) (value : Val) (this : Ref) (bp : Option Ref) (i : Nat)
    (d : ObjData) (h : s.cells[r]? = some (.script d))
    (hp : parseUsize name = some i) :
    internalSet a fuel s r name value this bp =
      some (setArrayElement s r i value).2 := by
  unfold internalSet
  rw [baseOf_script s r d h]
  dsimp only
  have hname : ¬ name = "__proto__" := by
    intro hh
    subst hh
    rw [show parseUsize "__proto__" = none from by decide] at hp
    cases hp
  rw [if_neg hname, hp]

theorem vecMirrorB_of_VecInv (d : ObjData) (h : VecInv d) : vecMirrorB d = true := by
  obtain ⟨v, hst, hall, hd⟩ := h
  unfold vecMirrorB
  rw [hst]
  rw [Bool.and_eq_true]
  constructor
  · cases hget : pmGet d.values "length" true with
    | none => rfl
    | some p =>
      obtain ⟨k, hm, hke⟩ := pmGet_mem _ _ _ _ hget
      have hkeq : k = "length" := by
        unfold keyEq at hke
        simpa using hke
      subst hkeq
      rcases hall _ hm with ⟨_, a, hp2⟩ | ⟨j, a, hk2, _, _⟩
      · simp only at hp2
        rw [hp2]
        simp
      · simp only at hk2
        exact absurd hk2.symm (usizeToString_ne_length j)
  · rw [List.all_eq_true]
    intro i hi
    have hilt : i < v.length := List.mem_range.mp hi
    cases hget : pmGet d.values (usizeToString i) true with
    | none => rfl
    | some p =>
      obtain ⟨k, hm, hke⟩ := pmGet_mem _ _ _ _ hget
      have hkeq : k = usizeToString i := by
        unfold keyEq at hke
        simpa using hke
      subst hkeq
      rcases hall _ hm with ⟨hk2, _, _⟩ | ⟨j, a, hk2, hj, hp2⟩
      · simp only at hk2
        exact absurd hk2 (usizeToString_ne_length i)
      · simp only at hk2 hp2
        have hji : j = i := usizeToString_inj j i hk2.symm
        subst hji
        rw [hp2]
        simp

/-- State-level strengthened invariant for reachable array objects. -/
def StInvC1 (s : St) (r : Ref) : Prop :=
  ∃ d, s.cells[r]? = some (.script d) ∧ VecInv d

theorem arrReach_StInv (s : St) (r : Ref) (h : ArrReach s r) : StInvC1 s r := by
  induction h with
  | init s proto =>
    refine ⟨_, arrayNew_cells s proto, [], rfl, ?_, ?_⟩
    · intro kv hkv
      simp only [List.mem_singleton] at hkv
      subst hkv
      exact Or.inl ⟨rfl, attrsDontEnum, rfl⟩
    · unfold KeysDistinct
      simp
  | setElem s r i v h ih =>
    obtain ⟨d, hc, hinv⟩ := ih
    unfold setArrayElement
    rw [readData_script s r d hc]
    dsimp only
    exact ⟨_, writeData_cells_self s r d _ hc, setArrayElementD_inv d i v hinv⟩
  | setLen s r n h ih =>
    obtain ⟨d, hc, hinv⟩ := ih
    unfold setLength
    rw [readData_script s r d hc]
    dsimp only
    exact ⟨_, writeData_cells_self s r d _ hc, setLengthD_inv d n hinv⟩
  | iset a fuel s s' r this name v bp i h hp hs ih =>
    obtain ⟨d, hc, hinv⟩ := ih
    rw [internalSet_numeric a fuel s r name v this bp i d hc hp] at hs
    have hs' : s' = (setArrayElement s r i v).2 := by
      injection hs with hs2
      exact hs2.symm
    subst hs'
    unfold setArrayElement
    rw [readData_script s r d hc]
    dsimp only
    exact ⟨_, writeData_cells_self s r d _ hc, setArrayElementD_inv d i v hinv⟩

/-- C1 (amended): for every object state reachable from a fresh array by
`set_array_element`, `set_length`, and `internal_set` of a numeric name, the
vector-mirror invariant holds: the `"length"` key (if present) stores the
vector length, and every stringified-index key below the vector length stores
the vector slot. (`delete_array_element` is excluded: it does not re-sync.) -/
theorem c1_vector_mirror (s : St) (r : Ref) (h : ArrReach s r) :
    ∃ d, readData s r = some d ∧ vecMirrorB d = true := by
  obtain ⟨d, hc, hinv⟩ := arrReach_StInv s r h
  exact ⟨d, readData_script s r d hc, vecMirrorB_of_VecInv d hinv⟩

/-- Witness for C1: the invariant holds concretely after a fresh array is
mutated by one `set_array_element`. -/
theorem c1_vector_mirror_witness :
    ∃ d,
      readData
        (setArrayElement (arrayNew ⟨[]⟩ none).2 (arrayNew ⟨[]⟩ none).1 0
          (.boolean true)).2 (arrayNew ⟨[]⟩ none).1 = some d ∧
      vecMirrorB d = true :=
  c1_vector_mirror _ _
    (ArrReach.setElem _ _ 0 (.boolean true) (ArrReach.init ⟨[]⟩ none))

/-- Counterexample to C1 as stated: `delete_array_element` is among the listed
array mutations, but after a fresh array receives element 0 and that element is
deleted, the property table still stores the old value at key `"0"` while the
vector slot is `Undefined` — the mirror invariant is false. -/
theorem c1_counterexample :
    (readData
      (deleteArrayElement
        (setArrayElement (arrayNew ⟨[]⟩ none).2 (arrayNew ⟨[]⟩ none).1 0
          (.boolean true)).2
        (arrayNew ⟨[]⟩ none).1 0)
      (arrayNew ⟨[]⟩ none).1).map vecMirrorB = some false := by decide

theorem emptySharedObj_fst (s : St) (proto : Option Ref) :
    (emptySharedObj s proto).1 = s.cells.length + 1 := by
  unfold emptySharedObj objectNew alloc
  simp

theorem getElem?_append_singleton (l : List Cell) (c : Cell) :
    (l ++ [c])[l.length]? = some c := by simp

theorem emptySharedObj_wrapper_cell (s : St) (proto : Option Ref) :
    (emptySharedObj s proto).2.cells[s.cells.length + 1]? =
      some (.shared s.cells.length none) := by
  show ((s.cells ++ [Cell.script (objectNewData proto)]) ++
      [Cell.shared s.cells.length none])[s.cells.length + 1]? = _
  have hl : (s.cells ++ [Cell.script (objectNewData proto)]).length =
      s.cells.length + 1 := by simp
  rw [← hl]
  exact getElem?_append_singleton _ _

/-- C4 (amended): raw-pointer equality coincides with cell identity, but a
`SharedObject` wrapper does not forward `as_ptr` to its base: the wrapper and
the base `ScriptObject` reached through `as_script_object` occupy distinct
cells, so their `as_ptr` values always differ. -/
theorem c4_asptr_wrapper_distinct (s : St) (proto : Option Ref) (b : Ref)
    (h : asScriptObject (emptySharedObj s proto).2 (emptySharedObj s proto).1 = some b) :
    asPtr b ≠ asPtr (emptySharedObj s proto).1 := by
  rw [emptySharedObj_fst s proto] at h ⊢
  unfold asScriptObject baseOf at h
  rw [emptySharedObj_wrapper_cell s proto] at h
  dsimp only at h
  injection h with hb
  subst hb
  unfold asPtr
  omega

/-- Witness for C4: in the empty arena, the freshly allocated shared object's
base resolves and its pointer differs from the wrapper's. -/
theorem c4_asptr_wrapper_distinct_witness :
    asScriptObject (emptySharedObj ⟨[]⟩ none).2 (emptySharedObj ⟨[]⟩ none).1 = some 0 ∧
      asPtr 0 ≠ asPtr (emptySharedObj ⟨[]⟩ none).1 :=
  ⟨by decide, c4_asptr_wrapper_distinct ⟨[]⟩ none 0 (by decide)⟩

/-- Counterexample to C4 as stated: the `SharedObject` wrapper (handle 1) and
its base `ScriptObject` (handle 0) denote the same underlying object — both
resolve to the same script object through `as_script_object` — yet their
`as_ptr` values differ, because `SharedObject::as_ptr` returns its own cell
pointer rather than the base's. -/
theorem c4_counterexample :
    asScriptObject (emptySharedObj ⟨[]⟩ none).2 1 =
        asScriptObject (emptySharedObj ⟨[]⟩ none).2 0 ∧
      asPtr 1 ≠ asPtr 0 := by decide

/-- C3 counterexample: on an object whose map holds key `"A"`,
`define_value("a", false, ∅)` resolves the key case-insensitively and
overwrites under `"A"`; afterwards no exact key `"a"` exists — the insertion
was not case-sensitive. -/
theorem c3_counterexample :
    (readData
        (defineValue
          (defineValue (objectNew ⟨[]⟩ none).2 (objectNew ⟨[]⟩ none).1 "A"
            (.boolean true) attrsEmpty)
          (objectNew ⟨[]⟩ none).1 "a" (.boolean false) attrsEmpty)
        (objectNew ⟨[]⟩ none).1).map
      (fun d => (pmGet d.values "a" true, pmGet d.values "A" true)) =
      some (none, some (.stored (.boolean false) attrsEmpty)) := by decide

/-- C3 (amended): `define_value` always inserts with the case-insensitive flag
(`false` in `script_object.rs` line 492), regardless of the activation: the new
property is found by case-insensitive lookup of the given name, and the key
set is unchanged when a folded match existed (the match is overwritten in
place), else the given name is appended. -/
theorem c3_define_value_case_insensitive (s : St) (r : Ref) (d : ObjData)
    (name : String) (v : Val) (attrs : Attrs)
    (h : s.cells[r]? = some (.script d)) :
    ∃ d', readData (defineValue s r name v attrs) r = some d' ∧
      pmGet d'.values name false = some (.stored v attrs) ∧
      ((pmContains d.values name false = true ∧
          d'.values.map Prod.fst = d.values.map Prod.fst) ∨
        (pmContains d.values name false = false ∧
          d'.values.map Prod.fst = d.values.map Prod.fst ++ [name])) := by
  unfold defineValue
  rw [readData_script s r d h]
  dsimp only
  refine ⟨_, readData_writeData_self s r d _ h, ?_, ?_⟩
  · exact pmGet_pmInsert_self name _ false d.values
  · exact pmInsert_keys name _ false d.values

/-- Witness for C3: defining `"a"` over an existing `"A"` finds the value
case-insensitively and leaves the key set unchanged. -/
theorem c3_define_value_case_insensitive_witness :
    ∃ d', readData
        (defineValue
          (defineValue (objectNew ⟨[]⟩ none).2 0 "A" (.boolean true) attrsEmpty)
          0 "a" (.boolean false) attrsEmpty) 0 = some d' ∧
      pmGet d'.values "a" false = some (.stored (.boolean false) attrsEmpty) ∧
      ((pmContains [("A", Property.stored (.boolean true) attrsEmpty)] "a" false = true ∧
          d'.values.map Prod.fst =
            [("A", Property.stored (.boolean true) attrsEmpty)].map Prod.fst) ∨
        (pmContains [("A", Property.stored (.boolean true) attrsEmpty)] "a" false = false ∧
          d'.values.map Prod.fst =
            [("A", Property.stored (.boolean true) attrsEmpty)].map Prod.fst ++ ["a"])) :=
  c3_define_value_case_insensitive
    (defineValue (objectNew ⟨[]⟩ none).2 0 "A" (.boolean true) attrsEmpty) 0
    ⟨none, [("A", Property.stored (.boolean true) attrsEmpty)], .properties 0, "object", []⟩
    "a" (.boolean false) attrsEmpty (by decide)

theorem setArrayElementD_vector_elem (d : ObjData) (vec : List Val) (i : Nat)
    (v : Val) (hst : d.arrayStorage = .vector vec) :
    ∃ v2 : List Val, (setArrayElementD d i v).2.arrayStorage = .vector v2 ∧
      v2.getD i .undefined = v := by
  unfold setArrayElementD
  have hd1v : (syncD d (usizeToString i) (some v) true).arrayStorage = .vector vec := hst
  simp only [hd1v]
  set v1 := if i ≥ vec.length then listResize vec (i + 1) .undefined else vec with hv1
  refine ⟨v1.set i v, rfl, ?_⟩
  apply listSet_getD_self
  rw [hv1]
  by_cases hge : i ≥ vec.length
  · simp only [hge, if_true]
    rw [listResize_length]
    omega
  · simp only [hge, if_false]
    omega

theorem setArrayElementD_props_elem (d : ObjData) (len i : Nat) (v : Val)
    (hst : d.arrayStorage = .properties len)
    (hget : pmGet d.values (usizeToString i) false = none ∨
      ∃ w a, pmGet d.values (usizeToString i) false = some (.stored w a)) :
    (setArrayElementD d i v).2.arrayStorage = .properties len ∧
      ∃ a, pmGet (setArrayElementD d i v).2.values (usizeToString i) false =
        some (.stored v a) := by
  unfold setArrayElementD
  have hd1v : (syncD d (usizeToString i) (some v) true).arrayStorage = .properties len := hst
  simp only [hd1v]
  exact ⟨trivial, pmGet_syncList_self _ v true d.values hget⟩

/-- C5 (amended): `set_array_element(i, v)` followed by `array_element(i)`
returns `v` unconditionally for vector storage; for `Properties` storage it
does so when `i` is below the stored length and the `"i"` slot is absent or a
stored property — otherwise (in particular whenever `i ≥ length`, since
`set_array_element` does not grow a `Properties` length) `array_element`
returns `Undefined`. -/
theorem c5_roundtrip :
    (∀ (s : St) (r : Ref) (d : ObjData) (vec : List Val) (i : Nat) (v : Val),
      s.cells[r]? = some (.script d) → d.arrayStorage = .vector vec →
      arrayElement (setArrayElement s r i v).2 r i = v) ∧
    (∀ (s : St) (r : Ref) (d : ObjData) (len i : Nat) (v : Val),
      s.cells[r]? = some (.script d) → d.arrayStorage = .properties len →
      i < len →
      (pmGet d.values (usizeToString i) false = none ∨
        ∃ w a, pmGet d.values (usizeToString i) false = some (.stored w a)) →
      arrayElement (setArrayElement s r i v).2 r i = v) := by
  constructor
  · intro s r d vec i v hc hst
    unfold setArrayElement
    rw [readData_script s r d hc]
    dsimp only
    unfold arrayElement
    rw [readData_writeData_self s r d _ hc]
    dsimp only
    obtain ⟨v2, hst2, hgd⟩ := setArrayElementD_vector_elem d vec i v hst
    rw [hst2]
    exact hgd
  · intro s r d len i v hc hst hlt hget
    unfold setArrayElement
    rw [readData_script s r d hc]
    dsimp only
    unfold arrayElement
    rw [readData_writeData_self s r d _ hc]
    dsimp only
    obtain ⟨hst2, a, hg2⟩ := setArrayElementD_props_elem d len i v hst hget
    rw [hst2]
    dsimp only
    rw [if_pos hlt, hg2]

/-- Witness for C5: both branches at concrete inputs — a fresh array stores and
returns element 2, and a `Properties` object with length 1 round-trips index 0. -/
theorem c5_roundtrip_witness :
    arrayElement
        (setArrayElement (arrayNew ⟨[]⟩ none).2 0 2 (.boolean true)).2 0 2 =
        .boolean true ∧
    arrayElement
        (setArrayElement (setLength (objectNew ⟨[]⟩ none).2 0 1) 0 0
          (.string "x")).2 0 0 = .string "x" :=
  ⟨c5_roundtrip.1 (arrayNew ⟨[]⟩ none).2 0
      ⟨none, [("length", .stored (.number 0) attrsDontEnum)], .vector [], "object", []⟩
      [] 2 (.boolean true) (by decide) rfl,
    c5_roundtrip.2 (setLength (objectNew ⟨[]⟩ none).2 0 1) 0
      ⟨none, [("length", .stored (.number 1) attrsDontEnum)], .properties 1, "object", []⟩
      1 0 (.string "x") (by decide) rfl (by decide) (Or.inl (by decide))⟩

/-- Counterexample to C5 as stated: on a fresh plain object (`Properties`
storage, length 0), `set_array_element(0, true)` stores the `"0"` property but
does not touch the length, and `array_element(0)` then returns `Undefined`,
not the written value. -/
theorem c5_counterexample :
    arrayElement
        (setArrayElement (objectNew ⟨[]⟩ none).2 (objectNew ⟨[]⟩ none).1 0
          (.boolean true)).2 (objectNew ⟨[]⟩ none).1 0 ≠ .boolean true ∧
    arrayElement
        (setArrayElement (objectNew ⟨[]⟩ none).2 (objectNew ⟨[]⟩ none).1 0
          (.boolean true)).2 (objectNew ⟨[]⟩ none).1 0 = .undefined := by decide

theorem noProtoData_iff (d : ObjData) :
    noProtoData d = true ↔ ∀ kv ∈ d.values, ¬ kv.1 = "__proto__" := by
  unfold noProtoData
  rw [List.all_eq_true]
  constructor
  · intro h kv hkv
    have := h kv hkv
    simpa using this
  · intro h kv hkv
    have := h kv hkv
    simpa using this

theorem noProto_of_keys (m m2 : PropMap) (name : String)
    (hk : (m2.map Prod.fst).Sublist (m.map Prod.fst) ∨
      m2.map Prod.fst = m.map Prod.fst ++ [name])
    (hm : ∀ kv ∈ m, ¬ kv.1 = "__proto__") (hn : ¬ name = "__proto__") :
    ∀ kv ∈ m2, ¬ kv.1 = "__proto__" := by
  intro kv hkv
  have hfst : kv.1 ∈ m2.map Prod.fst := List.mem_map.mpr ⟨kv, hkv, rfl⟩
  have hold : kv.1 ∈ m.map Prod.fst → ¬ kv.1 = "__proto__" := by
    intro hh
    obtain ⟨kv0, hkv0, he⟩ := List.mem_map.mp hh
    rw [← he]
    exact hm kv0 hkv0
  rcases hk with hsub | happ
  · exact hold (hsub.subset hfst)
  · rw [happ] at hfst
    rcases List.mem_append.mp hfst with hh | hh
    · exact hold hh
    · simp only [List.mem_singleton] at hh
      rw [hh]
      exact hn

theorem noProtoData_syncD (d : ObjData) (name : String) (nv : Option Val)
    (e : Bool) (h : noProtoData d = true) (hn : ¬ name = "__proto__") :
    noProtoData (syncD d name nv e) = true := by
  rw [noProtoData_iff] at h ⊢
  exact noProto_of_keys d.values _ name
    (by
      rcases syncList_keys name nv e d.values with h1 | h2
      · exact Or.inl h1
      · exact Or.inr h2.1)
    h hn

theorem noProtoData_setLengthD (d : ObjData) (n : Nat)
    (h : noProtoData d = true) : noProtoData (setLengthD d n) = true := by
  unfold setLengthD
  cases hst : d.arrayStorage with
  | properties len =>
    exact noProtoData_syncD _ "length" _ false h (by decide)
  | vector v =>
    apply noProtoData_syncD _ "length" _ false _ (by decide)
    by_cases hsh : n < v.length
    · simp only [hsh, if_true]
      rw [foldl_syncD_values]
      have : ∀ (l : List Nat) (m : PropMap), (∀ kv ∈ m, ¬ kv.1 = "__proto__") →
          ∀ kv ∈ l.foldl (fun mm i => syncList (usizeToString i) none true mm) m,
            ¬ kv.1 = "__proto__" := by
        intro l
        induction l with
        | nil => intro m hm; exact hm
        | cons i rest ih =>
          intro m hm
          simp only [List.foldl_cons]
          apply ih
          apply noProto_of_keys m _ (usizeToString i)
          · rcases syncList_keys (usizeToString i) none true m with h1 | h2
            · exact Or.inl h1
            · exact Or.inr h2.1
          · exact hm
          · exact usizeToString_ne_proto i
      rw [noProtoData_iff] at h ⊢
      exact this _ _ h
    · simp only [hsh, if_false]
      exact h

theorem noProtoData_setArrayElementD (d : ObjData) (i : Nat) (v : Val)
    (h : noProtoData d = true) : noProtoData (setArrayElementD d i v).2 = true := by
  unfold setArrayElementD
  have h1 : noProtoData (syncD d (usizeToString i) (some v) true) = true :=
    noProtoData_syncD d _ _ true h (usizeToString_ne_proto i)
  cases hst : (syncD d (usizeToString i) (some v) true).arrayStorage with
  | properties len =>
    simp only [hst]
    exact h1
  | vector v0 =>
    simp only [hst]
    apply noProtoData_syncD _ "length" _ false _ (by decide)
    rw [noProtoData_iff] at h1 ⊢
    exact h1

theorem stateNoProtoB_writeData_any (s : St) (r : Ref) (d' : ObjData)
    (hs : stateNoProtoB s = true) (hd' : noProtoData d' = true) :
    stateNoProtoB (writeData s r d') = true := by
  unfold writeData
  cases baseOf s r with
  | none => exact hs
  | some rb =>
    unfold stateNoProtoB at hs ⊢
    rw [List.all_eq_true] at hs ⊢
    intro c hcmem
    rcases List.mem_or_eq_of_mem_set hcmem with hh | hh
    · exact hs c hh
    · rw [hh]
      exact hd'

theorem noProtoData_of_readData (s : St) (r : Ref) (d : ObjData)
    (hs : stateNoProtoB s = true) (h : readData s r = some d) :
    noProtoData d = true := by
  unfold readData at h
  cases hb : baseOf s r with
  | none =>
    rw [hb] at h
    cases h
  | some rb =>
    rw [hb] at h
    dsimp only at h
    cases hc : s.cells[rb]? with
    | none =>
      rw [hc] at h
      cases h
    | some c =>
      rw [hc] at h
      cases c with
      | shared b nm =>
        cases h
      | script d2 =>
        have hd2 : d2 = d := by
          injection h
        subst hd2
        have hmem : Cell.script d2 ∈ s.cells := by
          have hlt := lt_length_of_getElem? s.cells rb _ hc
          have heq := List.getElem?_eq_getElem hlt
          rw [hc] at heq
          injection heq with hh
          rw [hh]
          exact List.getElem_mem hlt
        unfold stateNoProtoB at hs
        rw [List.all_eq_true] at hs
        exact hs _ hmem

theorem stateNoProtoB_setLength (s : St) (r : Ref) (n : Nat)
    (h : stateNoProtoB s = true) : stateNoProtoB (setLength s r n) = true := by
  unfold setLength
  cases hrd : readData s r with
  | none => exact h
  | some d =>
    exact stateNoProtoB_writeData_any s r _ h
      (noProtoData_setLengthD d n (noProtoData_of_readData s r d h hrd))

theorem stateNoProtoB_setArrayElement (s : St) (r : Ref) (i : Nat) (v : Val)
    (h : stateNoProtoB s = true) :
    stateNoProtoB (setArrayElement s r i v).2 = true := by
  unfold setArrayElement
  cases hrd : readData s r with
  | none => exact h
  | some d =>
    exact stateNoProtoB_writeData_any s r _ h
      (noProtoData_setArrayElementD d i v (noProtoData_of_readData s r d h hrd))

theorem stateNoProtoB_entryWrite (a : Activation) (s : St) (rb : Ref)
    (name : String) (v : Val) (this : Ref) (bp : Option Ref)
    (hexec : ∀ g t b args s0, stateNoProtoB s0 = true →
      stateNoProtoB (a.execRun g t b args s0).2 = true)
    (hs : stateNoProtoB s = true) (hn : ¬ name = "__proto__") :
    stateNoProtoB (entryWrite a s rb name v this bp) = true := by
  unfold entryWrite
  cases hrd : readData s rb with
  | none => exact hs
  | some d =>
    dsimp only
    have hd : noProtoData d = true := noProtoData_of_readData s rb d hs hrd
    have hd' : noProtoData
        { d with values := (entryList name v a.caseSensitive d.values).1 } = true := by
      rw [noProtoData_iff] at hd ⊢
      apply noProto_of_keys d.values _ name ?_ hd hn
      rcases entryList_keys name v a.caseSensitive d.values with h1 | h2
      · left
        rw [h1]
      · exact Or.inr h2
    have hs2 : stateNoProtoB
        (writeData s rb { d with values := (entryList name v a.caseSensitive d.values).1 })
        = true := stateNoProtoB_writeData_any _ _ _ hs hd'
    cases hmr : (entryList name v a.caseSensitive d.values).2 with
    | none => exact hs2
    | some g => exact hexec g this bp [v] _ hs2

/-- C6 (amended): `internal_set` preserves absence of a real `"__proto__"` key
in every script cell (a `__proto__` write targets the prototype field and all
map writes use other names), provided invoked setters and the object coercion
preserve it. The other insertion operations (`define_value`, `add_property`,
`add_property_with_case`, `sync_native_property`) insert the given name
verbatim and can create a real `"__proto__"` key when passed that name. -/
theorem c6_internal_set_no_proto (a : Activation) (fuel : Nat) (s s' : St)
    (r this : Ref) (name : String) (v : Val) (bp : Option Ref)
    (hexec : ∀ g t b args s0, stateNoProtoB s0 = true →
      stateNoProtoB (a.execRun g t b args s0).2 = true)
    (hco : ∀ w s0, stateNoProtoB s0 = true →
      stateNoProtoB (a.coerceToObject w s0).2 = true)
    (h0 : stateNoProtoB s = true)
    (hset : internalSet a fuel s r name v this bp = some s') :
    stateNoProtoB s' = true := by
  unfold internalSet at hset
  cases hb : baseOf s r with
  | none =>
    rw [hb] at hset
    dsimp only at hset
    injection hset with hh
    rw [← hh]
    exact h0
  | some rb =>
    rw [hb] at hset
    dsimp only at hset
    by_cases hpn : name = "__proto__"
    · rw [if_pos hpn] at hset
      have hs1 : stateNoProtoB (a.coerceToObject v s).2 = true := hco v s h0
      cases hrd : readData (a.coerceToObject v s).2 rb with
      | none =>
        rw [hrd] at hset
        dsimp only at hset
        injection hset with hh
        rw [← hh]
        exact hs1
      | some d =>
        rw [hrd] at hset
        dsimp only at hset
        injection hset with hh
        rw [← hh]
        apply stateNoProtoB_writeData_any _ _ _ hs1
        have hd : noProtoData d = true := noProtoData_of_readData _ rb d hs1 hrd
        exact hd
    · rw [if_neg hpn] at hset
      cases hp : parseUsize name with
      | some i =>
        rw [hp] at hset
        dsimp only at hset
        injection hset with hh
        rw [← hh]
        exact stateNoProtoB_setArrayElement s rb i v h0
      | none =>
        rw [hp] at hset
        dsimp only at hset
        by_cases he : name = ""
        · rw [if_pos he] at hset
          injection hset with hh
          rw [← hh]
          exact h0
        · rw [if_neg he] at hset
          have hs1 : stateNoProtoB
              (if name = "length" then
                if ((a.coerceLenI32 v).getD 0) > 0 then
                  setLength s rb ((a.coerceLenI32 v).getD 0).toNat
                else setLength s rb 0
              else s) = true := by
            by_cases hlen : name = "length"
            · rw [if_pos hlen]
              by_cases hgt : ((a.coerceLenI32 v).getD 0) > 0
              · rw [if_pos hgt]
                exact stateNoProtoB_setLength s rb _ h0
              · rw [if_neg hgt]
                exact stateNoProtoB_setLength s rb 0 h0
            · rw [if_neg hlen]
              exact h0
          set s1 := (if name = "length" then
                if ((a.coerceLenI32 v).getD 0) > 0 then
                  setLength s rb ((a.coerceLenI32 v).getD 0).toNat
                else setLength s rb 0
              else s) with hs1def
          cases hrd : readData s1 rb with
          | none =>
            rw [hrd] at hset
            dsimp only at hset
            injection hset with hh
            rw [← hh]
            exact hs1
          | some d1 =>
            rw [hrd] at hset
            dsimp only at hset
            by_cases hct : pmContains d1.values name a.caseSensitive = true
            · rw [if_pos hct] at hset
              injection hset with hh
              rw [← hh]
              exact stateNoProtoB_entryWrite a s1 rb name v this bp hexec hs1 hpn
            · rw [if_neg hct] at hset
              cases hf : findVirtHolder a s1 name fuel (some rb) with
              | none =>
                rw [hf] at hset
                cases hset
              | some oh =>
                cases oh with
                | none =>
                  rw [hf] at hset
                  dsimp only at hset
                  injection hset with hh
                  rw [← hh]
                  exact stateNoProtoB_entryWrite a s1 rb name v this bp hexec hs1 hpn
                | some holder =>
                  rw [hf] at hset
                  dsimp only at hset
                  cases hcs : callSetter a s1 holder name v with
                  | some g =>
                    rw [hcs] at hset
                    dsimp only at hset
                    injection hset with hh
                    rw [← hh]
                    exact hexec g this (some holder) [v] s1 hs1
                  | none =>
                    rw [hcs] at hset
                    dsimp only at hset
                    injection hset with hh
                    rw [← hh]
                    exact hs1

/-- A concrete activation with inert oracles: case-sensitive, object coercion
returns handle 0 without touching the arena, length coercion fails, every
executable returns `Undefined` without touching the arena. -/
def pureActivation : Activation :=
  ⟨true, fun _ s => (0, s), fun _ => none, fun _ _ _ _ s => (.ok .undefined, s)⟩

/-- Witness for C6: a concrete `internal_set` of `"foo"` on a fresh object
keeps every script cell free of a `"__proto__"` key. -/
theorem c6_internal_set_no_proto_witness :
    stateNoProtoB
      (⟨[.script ⟨none, [("foo", .stored (.boolean true) attrsEmpty)],
        .properties 0, "object", []⟩]⟩ : St) = true :=
  c6_internal_set_no_proto pureActivation 2 (objectNew ⟨[]⟩ none).2 _ 0 0 "foo"
    (.boolean true) none
    (fun _ _ _ _ _ h => h)
    (fun _ _ h => h)
    (by decide)
    (by decide)

/-- Counterexample to C6 as stated: `define_value` is among the listed
insertion operations, yet `define_value("__proto__", true, ∅)` on a fresh
object creates a real `"__proto__"` key in the property map — there is no
guard in `define_value` (`script_object.rs` lines 482-493). -/
theorem c6_counterexample :
    stateNoProtoB (objectNew ⟨[]⟩ none).2 = true ∧
      stateNoProtoB
        (defineValue (objectNew ⟨[]⟩ none).2 (objectNew ⟨[]⟩ none).1 "__proto__"
          (.boolean true) attrsEmpty) = false := by decide

/-- C7 (amended): for an ordinary name — one that does not parse as a `usize`
index, is not `"__proto__"` and is not `"length"` — and any attribute set
containing `ReadOnly`, `define_value(name, v0, attrs)` followed by
`set(name, v1)` on a fresh object leaves the stored value untouched:
`get_local(name)` returns `v0`. Index names and `"length"` must be excluded:
their writes go through `sync_native_property`, which ignores `ReadOnly`. -/
theorem c7_readonly_preserved (s : St) (a : Activation) (fuel : Nat)
    (name : String) (v0 v1 : Val) (attrs : Attrs)
    (hro : attrs.readOnly = true) (hpn : ¬ name = "__proto__")
    (hpl : ¬ name = "length") (hpu : parseUsize name = none) :
    ∃ s', setOp a fuel
        (defineValue (objectNew s none).2 (objectNew s none).1 name v0 attrs)
        (objectNew s none).1 name v1 = some s' ∧
      (getLocal a s' (objectNew s none).1 name (objectNew s none).1).1 = v0 := by
  have hc1 : (objectNew s none).2.cells[(objectNew s none).1]? =
      some (.script (objectNewData none)) := objectNew_cells s none
  have hrdef : readData (objectNew s none).2 (objectNew s none).1 =
      some (objectNewData none) := readData_script _ _ _ hc1
  have hdef : defineValue (objectNew s none).2 (objectNew s none).1 name v0 attrs =
      writeData (objectNew s none).2 (objectNew s none).1
        { objectNewData none with values := pmInsert name (.stored v0 attrs) false [] } := by
    unfold defineValue
    rw [hrdef]
    rfl
  have hc2 : (defineValue (objectNew s none).2 (objectNew s none).1 name v0
        attrs).cells[(objectNew s none).1]? =
      some (.script ⟨none, [(name, .stored v0 attrs)], .properties 0, "object", []⟩) := by
    rw [hdef]
    exact writeData_cells_self _ _ _ _ hc1
  have hrd2 : readData (defineValue (objectNew s none).2 (objectNew s none).1 name v0
        attrs) (objectNew s none).1 =
      some ⟨none, [(name, .stored v0 attrs)], .properties 0, "object", []⟩ :=
    readData_script _ _ _ hc2
  have hgl : ∀ s3 : St, s3.cells[(objectNew s none).1]? =
      some (.script ⟨none, [(name, .stored v0 attrs)], .properties 0, "object", []⟩) →
      (getLocal a s3 (objectNew s none).1 name (objectNew s none).1).1 = v0 := by
    intro s3 hc3
    unfold getLocal
    rw [baseOf_script _ _ _ hc3]
    dsimp only
    rw [readData_script _ _ _ hc3]
    dsimp only
    rw [if_neg hpn]
    have hget : pmGet [(name, Property.stored v0 attrs)] name a.caseSensitive =
        some (.stored v0 attrs) := by
      unfold pmGet
      rw [if_pos (keyEq_self a.caseSensitive name)]
    rw [hget]
  unfold setOp internalSet
  rw [baseOf_script _ _ _ hc2]
  dsimp only
  rw [if_neg hpn, hpu]
  dsimp only
  by_cases he : name = ""
  · rw [if_pos he]
    exact ⟨_, rfl, hgl _ hc2⟩
  · rw [if_neg he, if_neg hpl, hrd2]
    dsimp only
    have hcont : pmContains [(name, Property.stored v0 attrs)] name a.caseSensitive
        = true := by
      unfold pmContains pmGet
      rw [if_pos (keyEq_self a.caseSensitive name)]
      rfl
    rw [if_pos hcont]
    refine ⟨_, rfl, ?_⟩
    unfold entryWrite
    rw [hrd2]
    dsimp only
    have hel : entryList name v1 a.caseSensitive [(name, Property.stored v0 attrs)] =
        ([(name, Property.stored v0 attrs)], none) := by
      unfold entryList Property.setVal
      rw [if_pos (keyEq_self a.caseSensitive name)]
      dsimp only
      rw [if_pos hro]
    rw [hel]
    dsimp only
    apply hgl
    exact writeData_cells_self _ _ _ _ hc2

/-- Witness for C7: a concrete `ReadOnly` property `"x"` keeps its initial
value through a `set`. -/
theorem c7_readonly_preserved_witness :
    ∃ s', setOp pureActivation 0
        (defineValue (objectNew ⟨[]⟩ none).2 (objectNew ⟨[]⟩ none).1 "x"
          (.boolean true) ⟨false, false, true⟩)
        (objectNew ⟨[]⟩ none).1 "x" (.boolean false) = some s' ∧
      (getLocal pureActivation s' (objectNew ⟨[]⟩ none).1 "x"
        (objectNew ⟨[]⟩ none).1).1 = .boolean true :=
  c7_readonly_preserved ⟨[]⟩ pureActivation 0 "x" (.boolean true) (.boolean false)
    ⟨false, false, true⟩ rfl (by decide) (by decide) (by decide)

/-- Counterexample to C7 as stated: for the numeric name `"5"` with a
`ReadOnly` attribute set, `set("5", false)` routes through
`set_array_element(5, ...)`, whose `sync_native_property` overwrites the
stored value while ignoring `ReadOnly`; `get_local("5")` then returns the new
value, not `v0`. -/
theorem c7_counterexample :
    (setOp pureActivation 0
        (defineValue (objectNew ⟨[]⟩ none).2 (objectNew ⟨[]⟩ none).1 "5"
          (.boolean true) ⟨false, false, true⟩)
        (objectNew ⟨[]⟩ none).1 "5" (.boolean false)).map
      (fun s' => (getLocal pureActivation s' (objectNew ⟨[]⟩ none).1 "5"
        (objectNew ⟨[]⟩ none).1).1) = some (.boolean false) ∧
      Val.boolean false ≠ Val.boolean true := by decide

theorem getLocal_stored (a : Activation) (s3 : St) (r : Ref) (d3 : ObjData)
    (name : String) (v : Val) (attrs2 : Attrs) (t : Ref)
    (hc3 : s3.cells[r]? = some (.script d3))
    (hpn : ¬ name = "__proto__")
    (hget : pmGet d3.values name a.caseSensitive = some (.stored v attrs2)) :
    (getLocal a s3 r name t).1 = v := by
  unfold getLocal
  rw [baseOf_script _ _ _ hc3]
  dsimp only
  rw [readData_script _ _ _ hc3]
  dsimp only
  rw [if_neg hpn, hget]

theorem findVirtHolder_none_chain (a : Activation) (s : St) (name : String)
    (fuel : Nat) : findVirtHolder a s name fuel none = some none := by
  cases fuel <;> rfl

theorem findVirtHolder_no_virt_no_proto (a : Activation) (s : St) (name : String)
    (fuel : Nat) (r : Ref) (d : ObjData)
    (hc : s.cells[r]? = some (.script d))
    (hnv : pmGet d.values name a.caseSensitive = none)
    (hnp : d.prototype = none) :
    findVirtHolder a s name (fuel + 1) (some r) = some none := by
  unfold findVirtHolder
  have hhv : hasOwnVirtual a s r name = false := by
    unfold hasOwnVirtual
    rw [readData_script _ _ _ hc]
    dsimp only
    rw [hnv]
  rw [if_neg (by rw [hhv]; exact Bool.false_ne_true)]
  have hpo : protoOf s r = none := by
    unfold protoOf
    rw [readData_script _ _ _ hc]
    dsimp only
    exact hnp
  rw [hpo]
  exact findVirtHolder_none_chain a s name fuel

/-- The length `internal_set` extracts from a `"length"` write: the coerced
positive `i32`, else `0` (also on coercion failure). -/
def coercedLength (a : Activation) (v : Val) : Nat :=
  match a.coerceLenI32 v with
  | some n => if n > 0 then n.toNat else 0
  | none => 0

theorem lenBranch_eq (a : Activation) (v : Val) (s : St) (rb : Ref) :
    (if ((a.coerceLenI32 v).getD 0) > 0 then
      setLength s rb ((a.coerceLenI32 v).getD 0).toNat
    else setLength s rb 0) = setLength s rb (coercedLength a v) := by
  unfold coercedLength
  cases a.coerceLenI32 v with
  | none => simp
  | some n =>
    by_cases h : n > 0
    · simp [h]
    · simp [h]

theorem objectNew_cells_self (s : St) (proto : Option Ref) :
    (objectNew s proto).2.cells[(objectNew s proto).1]? =
      some (.script (objectNewData proto)) :=
  objectNew_cells s proto

theorem setLength_fresh_cells (s : St) (k : Nat) :
    (setLength (objectNew s none).2 (objectNew s none).1 k).cells[(objectNew s none).1]? =
      some (.script ⟨none, [("length", .stored (.number k) attrsDontEnum)],
        .properties k, "object", []⟩) := by
  unfold setLength
  rw [readData_script _ _ _ (objectNew_cells_self s none)]
  dsimp only
  exact writeData_cells_self _ _ _ _ (objectNew_cells_self s none)

theorem setOp_fresh_length_cells (s : St) (a : Activation) (fuel : Nat) (v : Val) :
    ∃ s', setOp a fuel (objectNew s none).2 (objectNew s none).1 "length" v = some s' ∧
      s'.cells[(objectNew s none).1]? = some (.script ⟨none,
        [("length", .stored v attrsDontEnum)], .properties (coercedLength a v),
        "object", []⟩) := by
  unfold setOp internalSet
  rw [baseOf_script _ _ _ (objectNew_cells_self s none)]
  dsimp only
  rw [if_neg (by decide : ¬ "length" = "__proto__")]
  rw [show parseUsize "length" = none from by decide]
  dsimp only
  rw [if_neg (by decide : ¬ "length" = "")]
  rw [if_pos rfl]
  rw [lenBranch_eq a v]
  rw [readData_script _ _ _ (setLength_fresh_cells s (coercedLength a v))]
  dsimp only
  have hcont : pmContains
      [("length", Property.stored (.number (coercedLength a v)) attrsDontEnum)]
      "length" a.caseSensitive = true := by
    unfold pmContains pmGet
    rw [if_pos (keyEq_self a.caseSensitive "length")]
    rfl
  rw [if_pos hcont]
  refine ⟨_, rfl, ?_⟩
  unfold entryWrite
  rw [readData_script _ _ _ (setLength_fresh_cells s (coercedLength a v))]
  dsimp only
  have hel : entryList "length" v a.caseSensitive
      [("length", Property.stored (.number (coercedLength a v)) attrsDontEnum)] =
      ([("length", Property.stored v attrsDontEnum)], none) := by
    unfold entryList Property.setVal
    rw [if_pos (keyEq_self a.caseSensitive "length")]
    dsimp only
    rw [if_neg (by decide : ¬ attrsDontEnum.readOnly = true)]
  rw [hel]
  dsimp only
  exact writeData_cells_self _ _ _ _ (setLength_fresh_cells s (coercedLength a v))

/-- C8: writing `"length"` through `[[Set]]` on a fresh object has the dual
effect: `set_length` is applied with the coerced absolute-truncated value when
positive, else with `0` (coercion failure also yields `0`), and the write then
falls through to the stored-value write, so the raw, uncoerced value ends up
stored under the `"length"` key and `get_local("length")` returns it. -/
theorem c8_length_dual_effect (s : St) (a : Activation) (fuel : Nat) (v : Val) :
    ∃ s', setOp a fuel (objectNew s none).2 (objectNew s none).1 "length" v =
        some s' ∧
      lengthOf s' (objectNew s none).1 =
        (match a.coerceLenI32 v with
         | some n => if n > 0 then n.toNat else 0
         | none => 0) ∧
      (getLocal a s' (objectNew s none).1 "length" (objectNew s none).1).1 = v := by
  obtain ⟨s', hset, hcell⟩ := setOp_fresh_length_cells s a fuel v
  refine ⟨s', hset, ?_, ?_⟩
  · unfold lengthOf
    rw [readData_script _ _ _ hcell]
    dsimp only
    unfold coercedLength
    rfl
  · exact getLocal_stored a s' _ _ "length" v attrsDontEnum _ hcell (by decide)
      (by unfold pmGet
          rw [if_pos (keyEq_self a.caseSensitive "length")])

/-- C2 (amended): on a freshly constructed object, for every value and every
name that does not parse as a Rust `usize` (Rust's parser also accepts an
optional leading `+`, so "does not start with an ASCII digit" is not enough),
is not `"__proto__"`, and is not empty: after `set(name, v)`,
`get_local(name)` returns `v`. -/
theorem c2_set_get_roundtrip (s : St) (a : Activation) (fuel : Nat)
    (name : String) (v : Val)
    (hpu : parseUsize name = none) (hpn : ¬ name = "__proto__")
    (he : ¬ name = "") :
    ∃ s', setOp a (fuel + 2) (objectNew s none).2 (objectNew s none).1 name v =
        some s' ∧
      (getLocal a s' (objectNew s none).1 name (objectNew s none).1).1 = v := by
  by_cases hlen : name = "length"
  · subst hlen
    obtain ⟨s', hset, hcell⟩ := setOp_fresh_length_cells s a (fuel + 2) v
    exact ⟨s', hset,
      getLocal_stored a s' _ _ "length" v attrsDontEnum _ hcell (by decide)
        (by unfold pmGet
            rw [if_pos (keyEq_self a.caseSensitive "length")])⟩
  · unfold setOp internalSet
    rw [baseOf_script _ _ _ (objectNew_cells_self s none)]
    dsimp only
    rw [if_neg hpn, hpu]
    dsimp only
    rw [if_neg he, if_neg hlen]
    rw [readData_script _ _ _ (objectNew_cells_self s none)]
    dsimp only [objectNewData]
    have hncont : ¬ pmContains [] name a.caseSensitive = true := by
      intro hh
      cases hh
    rw [if_neg hncont]
    rw [findVirtHolder_no_virt_no_proto a _ name (fuel + 1) _ _
      (objectNew_cells_self s none) rfl rfl]
    dsimp only
    refine ⟨_, rfl, ?_⟩
    unfold entryWrite
    rw [readData_script _ _ _ (objectNew_cells_self s none)]
    dsimp only [objectNewData]
    have hel : entryList name v a.caseSensitive [] =
        ([(name, .stored v attrsEmpty)], none) := rfl
    rw [hel]
    dsimp only
    exact getLocal_stored a _ _ _ name v attrsEmpty _
      (writeData_cells_self _ _ _ _ (objectNew_cells_self s none)) hpn
      (by unfold pmGet
          rw [if_pos (keyEq_self a.caseSensitive name)])

/-- Witness for C2: concrete round-trip of `"foo"` on a fresh object. -/
theorem c2_set_get_roundtrip_witness :
    parseUsize "foo" = none ∧ ¬ "foo" = "__proto__" ∧ ¬ "foo" = "" ∧
    ∃ s', setOp pureActivation 2 (objectNew ⟨[]⟩ none).2 (objectNew ⟨[]⟩ none).1
        "foo" (.boolean true) = some s' ∧
      (getLocal pureActivation s' (objectNew ⟨[]⟩ none).1 "foo"
        (objectNew ⟨[]⟩ none).1).1 = .boolean true :=
  ⟨by decide, by decide, by decide,
    c2_set_get_roundtrip ⟨[]⟩ pureActivation 0 "foo" (.boolean true)
      (by decide) (by decide) (by decide)⟩

/-- Counterexample to C2 as stated: `"+5"` does not start with an ASCII digit,
is not `"__proto__"` and is not empty, yet Rust's `usize` parser accepts the
leading `+`, so `set("+5", true)` is routed to `set_array_element(5, ..)`
(storing key `"5"`), and `get_local("+5")` afterwards returns `Undefined`,
not the written value. -/
theorem c2_counterexample :
    startsWithDigit "+5" = false ∧ ¬ "+5" = "__proto__" ∧ ¬ "+5" = "" ∧
    (setOp pureActivation 2 (objectNew ⟨[]⟩ none).2 (objectNew ⟨[]⟩ none).1
        "+5" (.boolean true)).map
      (fun s' => (getLocal pureActivation s' (objectNew ⟨[]⟩ none).1 "+5"
        (objectNew ⟨[]⟩ none).1).1) = some .undefined ∧
    Val.undefined ≠ Val.boolean true := by decide

/-- C9: `get_local` on an own virtual property executes its getter with `this`
the supplied override and `base_proto` the object itself, and a getter error
is silently turned into `Undefined` (never propagated); a name absent from the
own map (other than `"__proto__"`) also yields `Undefined`. -/
theorem c9_get_local_virtual (a : Activation) (s : St) (r t : Ref) (d : ObjData)
    (name : String) (g : Nat) (so : Option Nat) (attrs : Attrs)
    (hc : s.cells[r]? = some (.script d)) (hpn : ¬ name = "__proto__") :
    (pmGet d.values name a.caseSensitive = some (.virt g so attrs) →
      getLocal a s r name t =
        (match a.execRun g t (some r) [] s with
         | (.ok v, s1) => (v, s1)
         | (.error _, s1) => (.undefined, s1))) ∧
    (pmGet d.values name a.caseSensitive = none →
      getLocal a s r name t = (.undefined, s)) := by
  constructor
  · intro hget
    unfold getLocal
    rw [baseOf_script _ _ _ hc]
    dsimp only
    rw [readData_script _ _ _ hc]
    dsimp only
    rw [if_neg hpn, hget]
  · intro hget
    unfold getLocal
    rw [baseOf_script _ _ _ hc]
    dsimp only
    rw [readData_script _ _ _ hc]
    dsimp only
    rw [if_neg hpn, hget]

/-- A concrete activation whose executables always fail. -/
def errActivation : Activation :=
  ⟨true, fun _ s => (0, s), fun _ => none, fun _ _ _ _ s => (.error (), s)⟩

/-- Concrete object data with one virtual property `"g"` (getter id 7, no
setter). -/
def c9Data : ObjData :=
  ⟨none, [("g", .virt 7 none attrsEmpty)], .properties 0, "object", []⟩

/-- Concrete one-cell arena holding `c9Data`. -/
def c9State : St := ⟨[.script c9Data]⟩

/-- Witness for C9: the erring getter surfaces `Undefined` without state
change, and an absent name yields `Undefined`. -/
theorem c9_get_local_virtual_witness :
    getLocal errActivation c9State 0 "g" 0 = (.undefined, c9State) ∧
    getLocal errActivation c9State 0 "h" 0 = (.undefined, c9State) :=
  ⟨((c9_get_local_virtual errActivation c9State 0 0 c9Data "g" 7 none attrsEmpty
      (by decide) (by decide)).1 (by decide)).trans (by decide),
    (c9_get_local_virtual errActivation c9State 0 0 c9Data "h" 7 none attrsEmpty
      (by decide) (by decide)).2 (by decide)⟩

/-- C10 (amended): for a non-empty name that does not parse as an index and is
neither `"length"` nor `"__proto__"`: if the object's own map lacks the name
and the virtual-setter walk finds as first holder a chain object whose own
virtual property has no setter, then `internal_set` returns with the entire
state unchanged — no `Stored` property is created and the write is silently
discarded. (`"length"` must be excluded: its `set_length` pre-step syncs a
stored `"length"` into the own map before the vacancy check, so the walk is
skipped and a stored own property is created after all.) -/
theorem c10_setter_none_discard (a : Activation) (fuel : Nat) (s : St)
    (r t : Ref) (bp : Option Ref) (d dh : ObjData) (name : String) (v : Val)
    (holder : Ref) (g : Nat) (attrs : Attrs)
    (hc : s.cells[r]? = some (.script d))
    (hpu : parseUsize name = none) (hpn : ¬ name = "__proto__")
    (he : ¬ name = "") (hlen : ¬ name = "length")
    (hvac : ¬ pmContains d.values name a.caseSensitive = true)
    (hfind : findVirtHolder a s name fuel (some r) = some (some holder))
    (hch : readData s holder = some dh)
    (hvirt : pmGet dh.values name a.caseSensitive = some (.virt g none attrs)) :
    internalSet a fuel s r name v t bp = some s := by
  unfold internalSet
  rw [baseOf_script _ _ _ hc]
  dsimp only
  rw [if_neg hpn, hpu]
  dsimp only
  rw [if_neg he, if_neg hlen]
  rw [readData_script _ _ _ hc]
  dsimp only
  rw [if_neg hvac, hfind]
  dsimp only
  have hcs : callSetter a s holder name v = none := by
    unfold callSetter
    rw [hch]
    dsimp only
    rw [hvirt]
  rw [hcs]

/-- Concrete holder data: a virtual `"foo"` with getter id 3 and no setter. -/
def c10HolderData : ObjData :=
  ⟨none, [("foo", .virt 3 none attrsEmpty)], .properties 0, "object", []⟩

/-- Concrete object data: empty own map, prototype pointing at the holder. -/
def c10ObjData : ObjData := ⟨some 0, [], .properties 0, "object", []⟩

/-- Concrete two-cell arena: holder at 0, object at 1. -/
def c10State : St := ⟨[.script c10HolderData, .script c10ObjData]⟩

/-- Witness for C10: a concrete `set` of `"foo"` through a setterless chain
virtual leaves the state untouched. -/
theorem c10_setter_none_discard_witness :
    internalSet pureActivation 2 c10State 1 "foo" (.boolean true) 1 (some 1) =
      some c10State :=
  c10_setter_none_discard pureActivation 2 c10State 1 1 (some 1) c10ObjData
    c10HolderData "foo" (.boolean true) 0 3 attrsEmpty (by decide) (by decide)
    (by decide) (by decide) (by decide) (by decide) (by decide) (by decide)
    (by decide)

/-- Counterexample to C10 as stated: for the name `"length"` — non-empty and
non-numeric — with the own map vacant and the first chain holder's virtual
`"length"` having no setter, the claim's premises hold, yet `internal_set`
creates a stored own `"length"` property: the `set_length` pre-step syncs a
stored `"length"` into the map before the vacancy check, so the setter walk is
skipped and the stored-value write runs. -/
theorem c10_counterexample :
    pmContains ([] : PropMap) "length" true = false ∧
    findVirtHolder pureActivation
        ⟨[.script ⟨none, [("length", .virt 3 none attrsEmpty)], .properties 0,
          "object", []⟩, .script ⟨some 0, [], .properties 0, "object", []⟩]⟩
        "length" 2 (some 1) = some (some 0) ∧
    (internalSet pureActivation 2
        ⟨[.script ⟨none, [("length", .virt 3 none attrsEmpty)], .properties 0,
          "object", []⟩, .script ⟨some 0, [], .properties 0, "object", []⟩]⟩
        1 "length" (.boolean true) 1 (some 1)).map
      (fun s' => (readData s' 1).map (fun d => d.values)) =
      some (some [("length", .stored (.boolean true) attrsDontEnum)]) := by decide
